import Mathlib

/-!
Verification of the Agentic honeypot scam-detection core.

This file gives a shallow embedding, in Lean 4, of the algorithmic core of the
repository: the regex-plus-context intelligence extractor
(`app/intelligence_extractor.py`), the rule-based fallback classifier
(`app/llm_client.py`, class `FallbackLLMClient`), and the scam-detector
response parsing and degradation logic (`app/scam_detector.py`).

Modelling conventions:
- Python strings are modelled as `String` / `List Char`; all scanning is done
  on `List Char`.
- Python floats are modelled as exact rationals `ℚ`; the constants involved
  (0.1, 0.2, 0.25, 0.4, 0.5, 0.7, 0.95) are handled symbolically, as the
  specification states them.
- The three regular expressions of the extractor and the local URL pattern are
  compiled by hand into executable scanners that reproduce the leftmost,
  non-overlapping `re.findall` semantics of the concrete patterns, including
  word-boundary behaviour (ASCII word characters).
- `json.dumps` / `json.loads` are modelled by an executable JSON renderer and
  recursive-descent parser over a JSON value type.
- Exceptions are modelled with `Except String`; `list(set(...))` is modelled
  by first-occurrence deduplication (the claims proved about it are
  order-insensitive).
-/

namespace Honeypot

/-! ### Character helpers -/

/-- The double-quote character. -/
def qchar : Char := Char.ofNat 34

/-- The backslash character. -/
def bslash : Char := Char.ofNat 92

/-- The single-quote character. -/
def squote : Char := Char.ofNat 39

/-- The backtick character. -/
def btick : Char := Char.ofNat 96

/-- The opening curly-brace character. -/
def lbrace : Char := Char.ofNat 123

/-- The closing curly-brace character. -/
def rbrace : Char := Char.ofNat 125

/-- ASCII word character, the `\w` class of Python's `re` restricted to ASCII:
letters, digits and the underscore. -/
def isWordChar (c : Char) : Bool :=
  c.isAlpha || c.isDigit || c = '_'

/-- Word-character test lifted to an optional "previous character"; the edge of
the string counts as a non-word position. -/
def isWordOpt : Option Char → Bool
  | none => false
  | some c => isWordChar c

/-- Python `str.strip()` whitespace set (ASCII part). -/
def pyIsSpace (c : Char) : Bool :=
  c = ' ' || c = '\t' || c = '\n' || c = '\r' || c = Char.ofNat 11 || c = Char.ofNat 12

/-! ### Substring infrastructure -/

/-- Boolean prefix test on character lists. -/
def isPrefB : List Char → List Char → Bool
  | [], _ => true
  | _ :: _, [] => false
  | a :: as, b :: bs => a = b && isPrefB as bs

/-- Boolean substring (contiguous sublist) test, modelling Python's `in` on
strings. -/
def isSubB (n : List Char) : List Char → Bool
  | [] => n.isEmpty
  | b :: bs => isPrefB n (b :: bs) || isSubB n bs

/-- Substring as a proposition: `n` occurs contiguously inside `h`. -/
def substrOf (n h : List Char) : Prop :=
  ∃ pre post, h = pre ++ n ++ post

/-- Python's substring containment `needle in hay` on `String`s. -/
def containsStr (hay needle : String) : Bool :=
  isSubB needle.data hay.data

/-! ### Python string-operation models -/

/-- Python `str.strip()` with no arguments: drop characters satisfying `p` from
the front. -/
def dropWhileL (p : Char → Bool) (l : List Char) : List Char :=
  l.dropWhile p

/-- Strip characters satisfying `p` from both ends of a character list. -/
def stripWhile (p : Char → Bool) (l : List Char) : List Char :=
  ((l.dropWhile p).reverse.dropWhile p).reverse

/-- Python `str.strip()` (whitespace, both ends). -/
def pyStrip (l : List Char) : List Char :=
  stripWhile pyIsSpace l

/-- Python `str.strip(chars)` for an explicit character set. -/
def pyStripChars (set : List Char) (l : List Char) : List Char :=
  stripWhile (fun c => set.contains c) l

/-- First index at or after `start` where `sub` occurs in `hay`; models Python
`hay.find(sub, start)` (with `none` for `-1`). -/
def pyFindFromAux (sub : List Char) : List Char → Nat → Option Nat
  | [], i => if sub.isEmpty then some i else none
  | c :: cs, i =>
    if isPrefB sub (c :: cs) then some i else pyFindFromAux sub cs (i + 1)

/-- Python `hay.find(sub, start)`. -/
def pyFindFrom (hay sub : List Char) (start : Nat) : Option Nat :=
  (pyFindFromAux sub (hay.drop start) start)

/-- Python `hay.find(sub)`. -/
def pyFind (hay sub : List Char) : Option Nat :=
  pyFindFrom hay sub 0

/-- Python slice `l[start:stop]`. -/
def pySlice (l : List Char) (start stop : Nat) : List Char :=
  (l.drop start).take (stop - start)

/-- First-occurrence deduplication (worker), modelling `list(set(xs))` up to
order (the properties proved below are order-insensitive). -/
def dedupFirstAux (seen : List String) : List String → List String
  | [] => []
  | x :: xs =>
    if seen.contains x then dedupFirstAux seen xs
    else x :: dedupFirstAux (x :: seen) xs

/-- First-occurrence deduplication, modelling `list(set(xs))` up to order. -/
def dedupFirst (l : List String) : List String :=
  dedupFirstAux [] l

/-! ### Regex scanners

Hand-compiled executable forms of the regular expressions used by
`IntelligenceExtractor`, with Python `re.findall` semantics: scan left to
right, attempt a match at each position, emit the matched text and resume
immediately after it. Each matcher takes the previous character (for `\b`
word-boundary tests) and the remaining input, and returns the matched
characters together with the rest of the input. -/

/-- Boundary test at the end of a match whose last character is a word
character: the next character must not be a word character. -/
def endBoundary : List Char → Bool
  | [] => true
  | d :: _ => !(isWordChar d)

/-- Generic `re.findall` driver: walk the input, at each position attempt
`tryM`; on success emit the match and continue after it, otherwise advance one
character. `fuel` bounds the recursion (instantiated with `length + 1`, which
is sufficient since every step consumes at least one character). -/
def reFindAux (tryM : Option Char → List Char → Option (List Char × List Char)) :
    Nat → Option Char → List Char → List (List Char)
  | 0, _, _ => []
  | _ + 1, _, [] => []
  | fuel + 1, prev, c :: cs =>
    match tryM prev (c :: cs) with
    | some (m, rest) => m :: reFindAux tryM fuel m.getLast? rest
    | none => reFindAux tryM fuel (some c) cs

/-- Run a matcher over a whole input, `re.findall` style. -/
def reFindall (tryM : Option Char → List Char → Option (List Char × List Char))
    (l : List Char) : List (List Char) :=
  reFindAux tryM (l.length + 1) none l

/-! ### UPI pattern

`UPI_PATTERN = \b[a-zA-Z0-9._-]+@[a-zA-Z]{2,}[a-zA-Z0-9]*\b` (IGNORECASE). -/

/-- Character class `[a-zA-Z0-9._-]` of the UPI local part. -/
def upiLocalClass (c : Char) : Bool :=
  c.isAlpha || c.isDigit || c = '.' || c = '_' || c = '-'

/-- Attempt the UPI pattern at the current position. Backtracking analysis:
the local-part class does not contain `@`, so the greedy local run must be the
maximal run, immediately followed by `@`; the trailing `\b` succeeds only at
the end of the maximal alphanumeric extension, since any shorter extension is
followed by a word character. -/
def upiTryMatch (prev : Option Char) (l : List Char) : Option (List Char × List Char) :=
  match l with
  | [] => none
  | c :: _ =>
    if upiLocalClass c = false then none
    else if isWordOpt prev = isWordChar c then none
    else
      let nloc := (l.takeWhile upiLocalClass).length
      if (l.drop nloc).take 1 ≠ ['@'] then none
      else
        let na := ((l.drop (nloc + 1)).takeWhile (fun x => x.isAlpha)).length
        if na < 2 then none
        else
          let nd := ((l.drop (nloc + 1 + na)).takeWhile (fun x => x.isAlpha || x.isDigit)).length
          let k := nloc + 1 + na + nd
          if endBoundary (l.drop k) then some (l.take k, l.drop k) else none

/-! ### Bank-account pattern

`BANK_ACCOUNT_PATTERN = \b\d{9,18}\b`. A match requires a maximal digit run of
length 9–18 delimited by non-word characters (or the string edges); longer
runs admit no match anywhere inside them because every interior position fails
the word boundary. -/

/-- Attempt the bank-account pattern at the current position. -/
def bankTryMatch (prev : Option Char) (l : List Char) : Option (List Char × List Char) :=
  match l with
  | [] => none
  | c :: _ =>
    if c.isDigit = false then none
    else if isWordOpt prev then none
    else
      let n := (l.takeWhile (fun x => x.isDigit)).length
      if 9 ≤ n ∧ n ≤ 18 then
        if endBoundary (l.drop n) then some (l.take n, l.drop n) else none
      else none

/-! ### IFSC pattern

`IFSC_PATTERN = \b[A-Z]{4}0[A-Z0-9]{6}\b` (IGNORECASE): four letters, a
literal `0`, six alphanumerics, delimited by word boundaries. -/

/-- Attempt the IFSC pattern at the current position. -/
def ifscTryMatch (prev : Option Char) (l : List Char) : Option (List Char × List Char) :=
  match l with
  | [] => none
  | c :: _ =>
    if c.isAlpha = false then none
    else if isWordOpt prev then none
    else
      let m := l.take 11
      if m.length = 11 ∧ (m.take 4).all (fun x => x.isAlpha) ∧
          (m.drop 4).take 1 = ['0'] ∧
          (m.drop 5).all (fun x => x.isAlpha || x.isDigit) ∧
          endBoundary (l.drop 11) = true then
        some (m, l.drop 11)
      else none

/-! ### URL pattern of `_extract_phishing_links`

The method compiles its own pattern
`https?://[^\s<>"\'{}|\\^`\[\]]+|www\.[^\s<>"\'{}|\\^`\[\]]+` (IGNORECASE). -/

/-- Character class of a URL body: everything except whitespace and the
excluded punctuation set. -/
def urlBodyClass (c : Char) : Bool :=
  !(pyIsSpace c || c = '<' || c = '>' || c = qchar || c = squote || c = lbrace ||
    c = rbrace || c = '|' || c = bslash || c = '^' || c = btick || c = '[' || c = ']')

/-- Case-insensitive literal-prefix test (`pat` is given lowercase). -/
def ciPrefix : List Char → List Char → Bool
  | [], _ => true
  | _ :: _, [] => false
  | p :: ps, c :: cs => c.toLower = p && ciPrefix ps cs

/-- Attempt the URL pattern at the current position: a `http://`, `https://`
or `www.` prefix followed by at least one body character. -/
def urlTryMatch (_prev : Option Char) (l : List Char) : Option (List Char × List Char) :=
  if ciPrefix "https://".data l then
    let nb := ((l.drop 8).takeWhile urlBodyClass).length
    if nb = 0 then none else some (l.take (8 + nb), l.drop (8 + nb))
  else if ciPrefix "http://".data l then
    let nb := ((l.drop 7).takeWhile urlBodyClass).length
    if nb = 0 then none else some (l.take (7 + nb), l.drop (7 + nb))
  else if ciPrefix "www.".data l then
    let nb := ((l.drop 4).takeWhile urlBodyClass).length
    if nb = 0 then none else some (l.take (4 + nb), l.drop (4 + nb))
  else none

/-! ### IntelligenceExtractor -/

/-- Known UPI app / bank suffixes (`VALID_UPI_SUFFIXES`). -/
def VALID_UPI_SUFFIXES : List String :=
  ["ybl", "okhdfcbank", "okaxis", "oksbi", "okicici",
   "paytm", "upi", "gpay", "ibl", "axl", "sbi",
   "icici", "hdfc", "axis", "kotak", "bob", "pnb",
   "canara", "union", "indian", "idbi", "rbl", "yes",
   "federal", "indus", "dbs", "citi", "hsbc", "sc",
   "apl", "pingpay", "freecharge", "airtel", "jio",
   "waaxis", "wahdfcbank", "wasbi", "waicici"]

/-- Suspicious/phishing domain indicators (`SUSPICIOUS_INDICATORS`). -/
def SUSPICIOUS_INDICATORS : List String :=
  ["verify", "secure", "update", "confirm", "login",
   "bank", "account", "claim", "prize", "winner",
   "kyc", "suspend", "block", "urgent", "reward",
   "lottery", "lucky", "bonus", "offer", "free"]

/-- Personal e-mail provider fragments used by `_is_likely_email`. -/
def email_domains : List String :=
  ["gmail", "yahoo", "hotmail", "outlook", "mail", "email"]

/-- URL shorteners checked by `_extract_phishing_links`. -/
def url_shorteners : List String :=
  ["bit.ly", "tinyurl", "goo.gl", "t.co", "ow.ly", "is.gd", "buff.ly"]

/-- Suspicious top-level-domain strings checked by `_extract_phishing_links`. -/
def suspicious_tlds : List String :=
  [".tk", ".ml", ".ga", ".cf", ".gq", ".xyz", ".top", ".click", ".online",
   ".site", ".win", ".vip"]

/-- Whitelisted legitimate domains (`_is_legitimate_domain`). -/
def legitimate_domains : List String :=
  ["google.com", "facebook.com", "twitter.com", "instagram.com",
   "youtube.com", "github.com", "linkedin.com", "microsoft.com",
   "apple.com", "amazon.com", "wikipedia.org", "gov.in",
   "sbi.co.in", "hdfcbank.com", "icicibank.com", "axisbank.com"]

/-- Bank-context keywords of `_has_bank_context`. -/
def bank_keywords : List String :=
  ["account", "a/c", "bank", "transfer", "send", "money",
   "deposit", "credit", "debit", "neft", "rtgs", "imps",
   "ifsc", "branch", "savings", "current"]

/-- Lowercasing of a character list (Python `str.lower()`, ASCII). -/
def lowerL (l : List Char) : List Char :=
  l.map Char.toLower

/-- The fragment after the last `@`, lowercased: Python
`candidate.split('@')[-1].lower()`. -/
def suffixAfterAt (cand : List Char) : List Char :=
  lowerL ((cand.reverse.takeWhile (fun c => c ≠ '@')).reverse)

/-- Model of `IntelligenceExtractor._is_likely_email`. -/
def is_likely_email (cand : List Char) : Bool :=
  let suffix := suffixAfterAt cand
  email_domains.any (fun d => isSubB d.data suffix)

/-- The suffix-based acceptance test of `_extract_upi_ids`: exact whitelist
membership, or `upi`/`pay` as a substring of the suffix. -/
def upiSuffixAccept (cand : List Char) : Bool :=
  let suffix := suffixAfterAt cand
  VALID_UPI_SUFFIXES.any (fun s => suffix = s.data) ||
    isSubB "upi".data suffix || isSubB "pay".data suffix

/-- Model of `re.match(r'^\d{10}@', candidate)`: ten digits followed by `@`. -/
def phoneAtShape (cand : List Char) : Bool :=
  (cand.take 10).length = 10 && (cand.take 10).all (fun c => c.isDigit) &&
    (cand.drop 10).take 1 = ['@']

/-- Model of `IntelligenceExtractor._extract_upi_ids` (the list before
deduplication and capping). -/
def extract_upi_ids (text : List Char) : List (List Char) :=
  (reFindall upiTryMatch text).filter
    (fun cand => !(is_likely_email cand) && (upiSuffixAccept cand || phoneAtShape cand))

/-- Leading digit 6–9 test of the mobile-number filter. -/
def startsMobileDigit (acc : List Char) : Bool :=
  match acc.take 1 with
  | [c] => c = '6' || c = '7' || c = '8' || c = '9'
  | _ => false

/-- Model of `IntelligenceExtractor._has_bank_context`. -/
def has_bank_context (text number : List Char) : Bool :=
  match pyFind text number with
  | none => true
  | some pos =>
    let start := pos - 100
    let stop := pos + number.length + 100
    let context := lowerL (pySlice text start stop)
    bank_keywords.any (fun k => isSubB k.data context)

/-- The account filter of `_extract_bank_info`: not a mobile-looking 10-digit
run, length within 9–18, and bank context nearby. -/
def bankAccountAccept (text acc : List Char) : Bool :=
  !(acc.length = 10 && startsMobileDigit acc) &&
    (9 ≤ acc.length && acc.length ≤ 18) &&
    has_bank_context text acc

/-- Valid account numbers of `_extract_bank_info`. -/
def extract_bank_accounts (text : List Char) : List (List Char) :=
  (reFindall bankTryMatch text).filter (bankAccountAccept text)

/-- IFSC codes of `_extract_bank_info`. -/
def extract_ifsc_codes (text : List Char) : List (List Char) :=
  reFindall ifscTryMatch text

/-- Punctuation stripped from both ends of a URL candidate:
`url.strip('.,;:!?()')`. -/
def stripPunct (u : List Char) : List Char :=
  pyStripChars ".,;:!?()".data u

/-- Model of `IntelligenceExtractor._is_legitimate_domain` (argument already
lowercased). -/
def is_legitimate_domain (url : List Char) : Bool :=
  legitimate_domains.any (fun d => isSubB d.data url)

/-- The suspicion test of `_extract_phishing_links` over the lowercased URL:
a suspicious indicator, a URL shortener, or a suspicious TLD string occurs as
a substring. -/
def urlSuspicious (url_lower : List Char) : Bool :=
  SUSPICIOUS_INDICATORS.any (fun d => isSubB d.data url_lower) ||
    url_shorteners.any (fun d => isSubB d.data url_lower) ||
    suspicious_tlds.any (fun d => isSubB d.data url_lower)

/-- Model of `IntelligenceExtractor._extract_phishing_links` (the list before
deduplication and capping). -/
def extract_phishing_links (text : List Char) : List (List Char) :=
  ((reFindall urlTryMatch text).map stripPunct).filter
    (fun u => !(is_legitimate_domain (lowerL u)) && urlSuspicious (lowerL u))

/-! ### JSON model

Executable model of the fragment of `json.dumps` / `json.loads` used by the
repository. Numbers are exact rationals (Python floats are modelled exactly;
`NaN`/`Infinity` handling and non-BMP `\u` surrogate pairs are outside the
model, and none of the repository's values use them). -/

/-- JSON values. -/
inductive Json where
  | null : Json
  | bool (b : Bool) : Json
  | num (q : ℚ) : Json
  | str (s : String) : Json
  | arr (elems : List Json) : Json
  | obj (fields : List (String × Json)) : Json
deriving Repr

/-- Decimal digits worker: peel the least significant digit onto the
accumulator; the fuel (instantiated with `n + 1`) covers the digit count. -/
def natDigitsAux : Nat → Nat → List Char → List Char
  | 0, _, acc => acc
  | fuel + 1, n, acc =>
    if n < 10 then Char.ofNat (48 + n) :: acc
    else natDigitsAux fuel (n / 10) (Char.ofNat (48 + n % 10) :: acc)

/-- Decimal digits of a natural number, modelling Python `str(int)`. -/
def natDigits (n : Nat) : List Char :=
  natDigitsAux (n + 1) n []

/-- Python `str(int)` for naturals. -/
def natToDecimal (n : Nat) : String :=
  String.mk (natDigits n)

/-- Decimal rendering of a non-negative multiple of 1/100 given in hundredths,
with at least one fractional digit and no trailing zero beyond it; this is the
`repr` of the Python floats produced by the rule-based classifier. -/
def decimalOfCents (cents : Nat) : String :=
  let ip := cents / 100
  let fr := cents % 100
  if fr = 0 then natToDecimal ip ++ ".0"
  else if fr % 10 = 0 then natToDecimal ip ++ "." ++ natToDecimal (fr / 10)
  else if fr < 10 then natToDecimal ip ++ ".0" ++ natToDecimal fr
  else natToDecimal ip ++ "." ++ natToDecimal fr

/-- Float repr for the rationals arising in this model (multiples of 1/100),
computed on the numerator/denominator to stay kernel-reducible. -/
def qRepr (q : ℚ) : String :=
  if q.num < 0 then "-" ++ decimalOfCents (((-q.num).toNat * 100) / q.den)
  else decimalOfCents ((q.num.toNat * 100) / q.den)

/-- Lowercase hexadecimal digit. -/
def hexDigitChar (n : Nat) : Char :=
  if n < 10 then Char.ofNat (48 + n) else Char.ofNat (87 + n)

/-- A `\uXXXX` escape for a BMP code point. -/
def uEscape (n : Nat) : List Char :=
  [bslash, 'u', hexDigitChar (n / 4096 % 16), hexDigitChar (n / 256 % 16),
   hexDigitChar (n / 16 % 16), hexDigitChar (n % 16)]

/-- Escaping of one character inside a JSON string (`json.dumps` with the
default `ensure_ascii=True`). -/
def escapeChar (c : Char) : List Char :=
  if c = qchar then [bslash, qchar]
  else if c = bslash then [bslash, bslash]
  else if c = '\n' then [bslash, 'n']
  else if c = '\t' then [bslash, 't']
  else if c = '\r' then [bslash, 'r']
  else if c = Char.ofNat 8 then [bslash, 'b']
  else if c = Char.ofNat 12 then [bslash, 'f']
  else if c.toNat < 32 || 127 ≤ c.toNat then uEscape c.toNat
  else [c]

/-- Rendering of a JSON string literal. -/
def renderString (s : String) : String :=
  String.mk ([qchar] ++ (s.data.map escapeChar).flatten ++ [qchar])

mutual

/-- Model of `json.dumps` with its default separators. -/
def renderJson : Json → String
  | .null => "null"
  | .bool true => "true"
  | .bool false => "false"
  | .num q => qRepr q
  | .str s => renderString s
  | .arr es => "[" ++ renderArr es ++ "]"
  | .obj fs => String.mk [lbrace] ++ renderFields fs ++ String.mk [rbrace]

/-- Comma-joined rendering of array elements. -/
def renderArr : List Json → String
  | [] => ""
  | [e] => renderJson e
  | e :: e2 :: es => renderJson e ++ ", " ++ renderArr (e2 :: es)

/-- Comma-joined rendering of object fields. -/
def renderFields : List (String × Json) → String
  | [] => ""
  | [(k, v)] => renderString k ++ ": " ++ renderJson v
  | (k, v) :: f2 :: fs => renderString k ++ ": " ++ renderJson v ++ ", " ++ renderFields (f2 :: fs)

end

/-- JSON whitespace. -/
def jsonWsChar (c : Char) : Bool :=
  c = ' ' || c = '\t' || c = '\n' || c = '\r'

/-- Skip JSON whitespace. -/
def skipWs (l : List Char) : List Char :=
  l.dropWhile jsonWsChar

/-- Hexadecimal digit value. -/
def hexVal (c : Char) : Option Nat :=
  if c.isDigit then some (c.toNat - 48)
  else if 'a' ≤ c ∧ c ≤ 'f' then some (c.toNat - 87)
  else if 'A' ≤ c ∧ c ≤ 'F' then some (c.toNat - 55)
  else none

/-- Prepend a character to the parsed part of a string-parser result. -/
def consFst (c : Char) : Option (List Char × List Char) → Option (List Char × List Char)
  | none => none
  | some (s, r) => some (c :: s, r)

/-- Parse the body of a JSON string (after the opening quote), decoding
escapes, rejecting unescaped control characters, up to the closing quote. -/
def parseStringBody : List Char → Option (List Char × List Char)
  | [] => none
  | c :: cs =>
    if c = qchar then some ([], cs)
    else if c = bslash then
      match cs with
      | [] => none
      | e :: cs2 =>
        if e = qchar then consFst qchar (parseStringBody cs2)
        else if e = bslash then consFst bslash (parseStringBody cs2)
        else if e = '/' then consFst '/' (parseStringBody cs2)
        else if e = 'b' then consFst (Char.ofNat 8) (parseStringBody cs2)
        else if e = 'f' then consFst (Char.ofNat 12) (parseStringBody cs2)
        else if e = 'n' then consFst '\n' (parseStringBody cs2)
        else if e = 'r' then consFst '\r' (parseStringBody cs2)
        else if e = 't' then consFst '\t' (parseStringBody cs2)
        else if e = 'u' then
          match cs2 with
          | h1 :: h2 :: h3 :: h4 :: cs3 =>
            match hexVal h1, hexVal h2, hexVal h3, hexVal h4 with
            | some a, some b, some c2, some d =>
              consFst (Char.ofNat (a * 4096 + b * 256 + c2 * 16 + d)) (parseStringBody cs3)
            | _, _, _, _ => none
          | _ => none
        else none
    else if c.toNat < 32 then none
    else consFst c (parseStringBody cs)
termination_by structural l => l

/-- Numeric value of a digit list. -/
def natOfDigits (ds : List Char) : Nat :=
  ds.foldl (fun acc c => acc * 10 + (c.toNat - 48)) 0

/-- Parse a JSON number (`-? (0 | [1-9][0-9]*) frac? exp?`) as an exact
rational; the value is accumulated as a numerator/denominator pair of machine
integers (kernel-reducible) and normalized by `mkRat` at the end. -/
def parseNumber (l : List Char) : Option (ℚ × List Char) :=
  let negl : Bool × List Char :=
    match l with
    | c :: cs => if c = '-' then (true, cs) else (false, l)
    | [] => (false, l)
  let neg := negl.1
  let l1 := negl.2
  match l1 with
  | [] => none
  | c :: _ =>
    if !c.isDigit then none
    else
      let ds := l1.takeWhile (fun x => x.isDigit)
      if 1 < ds.length ∧ c = '0' then none
      else
        let l2 := l1.drop ds.length
        let ipN : Nat := natOfDigits ds
        let withFrac : Option (Nat × Nat × List Char) :=
          match l2 with
          | c2 :: l3 =>
            if c2 = '.' then
              let fds := l3.takeWhile (fun x => x.isDigit)
              if fds.isEmpty then none
              else
                some (ipN * 10 ^ fds.length + natOfDigits fds, 10 ^ fds.length,
                  l3.drop fds.length)
            else some (ipN, 1, l2)
          | [] => some (ipN, 1, l2)
        match withFrac with
        | none => none
        | some (numN, denN, l4) =>
          let withExp : Option (Nat × Nat × List Char) :=
            match l4 with
            | c3 :: l5 =>
              if c3 = 'e' ∨ c3 = 'E' then
                let sgnl : Bool × List Char :=
                  match l5 with
                  | c4 :: l6 =>
                    if c4 = '-' then (true, l6)
                    else if c4 = '+' then (false, l6) else (false, l5)
                  | [] => (false, l5)
                let eds := sgnl.2.takeWhile (fun x => x.isDigit)
                if eds.isEmpty then none
                else
                  let e := natOfDigits eds
                  some (if sgnl.1 then (numN, denN * 10 ^ e, sgnl.2.drop eds.length)
                    else (numN * 10 ^ e, denN, sgnl.2.drop eds.length))
              else some (numN, denN, l4)
            | [] => some (numN, denN, l4)
          match withExp with
          | none => none
          | some (numF, denF, rest) =>
            some (if neg then -(mkRat numF denF) else mkRat numF denF, rest)

mutual

/-- Parse a JSON value (fuelled recursive descent; the fuel only has to cover
the recursion depth and field count and is instantiated generously). -/
def parseValue : Nat → List Char → Option (Json × List Char)
  | 0, _ => none
  | fuel + 1, l =>
    let l := skipWs l
    match l with
    | [] => none
    | c :: cs =>
      if c = lbrace then parseObjBody fuel (skipWs cs)
      else if c = '[' then parseArrBody fuel (skipWs cs)
      else if c = qchar then
        match parseStringBody cs with
        | none => none
        | some (s, r) => some (Json.str (String.mk s), r)
      else if isPrefB "true".data l then some (Json.bool true, l.drop 4)
      else if isPrefB "false".data l then some (Json.bool false, l.drop 5)
      else if isPrefB "null".data l then some (Json.null, l.drop 4)
      else
        match parseNumber l with
        | none => none
        | some (q, r) => some (Json.num q, r)

/-- Parse an object body after the opening brace (whitespace already
skipped). -/
def parseObjBody : Nat → List Char → Option (Json × List Char)
  | 0, _ => none
  | fuel + 1, l =>
    match l with
    | [] => none
    | c :: cs =>
      if c = rbrace then some (Json.obj [], cs)
      else parseFields fuel (c :: cs) []

/-- Parse the fields of a non-empty object body. -/
def parseFields : Nat → List Char → List (String × Json) → Option (Json × List Char)
  | 0, _, _ => none
  | fuel + 1, l, acc =>
    match l with
    | [] => none
    | c :: cs =>
      if c = qchar then
        match parseStringBody cs with
        | none => none
        | some (k, r1) =>
          match skipWs r1 with
          | [] => none
          | c2 :: r2 =>
            if c2 = ':' then
              match parseValue fuel r2 with
              | none => none
              | some (v, r3) =>
                match skipWs r3 with
                | [] => none
                | c3 :: r4 =>
                  if c3 = ',' then parseFields fuel (skipWs r4) (acc ++ [(String.mk k, v)])
                  else if c3 = rbrace then some (Json.obj (acc ++ [(String.mk k, v)]), r4)
                  else none
            else none
      else none

/-- Parse an array body after the opening bracket (whitespace already
skipped). -/
def parseArrBody : Nat → List Char → Option (Json × List Char)
  | 0, _ => none
  | fuel + 1, l =>
    match l with
    | [] => none
    | c :: cs =>
      if c = ']' then some (Json.arr [], cs)
      else parseElems fuel (c :: cs) []

/-- Parse the elements of a non-empty array body. -/
def parseElems : Nat → List Char → List Json → Option (Json × List Char)
  | 0, _, _ => none
  | fuel + 1, l, acc =>
    match parseValue fuel l with
    | none => none
    | some (v, r) =>
      match skipWs r with
      | [] => none
      | c :: r2 =>
        if c = ',' then parseElems fuel r2 (acc ++ [v])
        else if c = ']' then some (Json.arr (acc ++ [v]), r2)
        else none

end

/-- Model of `json.loads`: parse a complete document, allowing surrounding
whitespace only. -/
def parseJson (s : String) : Except String Json :=
  match parseValue (s.data.length + 2) s.data with
  | none => Except.error "Expecting value"
  | some (j, rest) =>
    if (skipWs rest).isEmpty then Except.ok j else Except.error "Extra data"

/-- Output record of `extract_all` (the `ExtractedIntelligence` model). -/
structure ExtractedIntelligence where
  bankAccounts : List String
  upiIds : List String
  phishingLinks : List String
deriving DecidableEq, Repr

/-- Model of `IntelligenceExtractor.extract_all`: dedup, label IFSC codes,
cap each list at 10. -/
def extract_all (text : String) : ExtractedIntelligence :=
  let t := text.data
  let upi_ids := (extract_upi_ids t).map String.mk
  let bank_accounts := (extract_bank_accounts t).map String.mk
  let ifsc_codes := (extract_ifsc_codes t).map String.mk
  let phishing_links := (extract_phishing_links t).map String.mk
  let bank_info := dedupFirst bank_accounts ++ ifsc_codes.map (fun c => "IFSC: " ++ c)
  { bankAccounts := bank_info.take 10
    upiIds := (dedupFirst upi_ids).take 10
    phishingLinks := (dedupFirst phishing_links).take 10 }

/-! ### FallbackLLMClient (rule-based classifier) -/

/-- Internal verdict record (`ScamAnalysis` of `app/models.py`; confidence is
a Python float, modelled as an exact rational). -/
structure ScamAnalysis where
  is_scam : Bool
  confidence : ℚ
  scam_type : Option String
  reasoning : String
  risk_level : String
deriving DecidableEq, Repr

/-- Regular scam indicator keywords (`FallbackLLMClient.SCAM_KEYWORDS`). -/
def SCAM_KEYWORDS : List String :=
  ["prize", "winner", "lottery", "won", "congratulations", "claim",
   "urgent", "immediately", "verify", "kyc", "suspend", "blocked",
   "account", "update", "otp", "password", "pin", "cvv",
   "bank", "transfer", "payment", "upi", "send money",
   "reward", "bonus", "offer", "free", "gift",
   "click here", "link", "verify now", "act now",
   "limited time", "expire", "deadline",
   "government", "rbi", "income tax", "refund",
   "loan", "credit", "approved", "eligible",
   "job", "work from home", "earn money", "investment"]

/-- High-confidence scam phrases of `FallbackLLMClient._detect_scam`. -/
def high_confidence_keywords : List String :=
  ["lottery", "won prize", "claim prize", "congratulations you won",
   "send money", "pay fee", "processing fee", "advance payment",
   "kyc blocked", "account suspended", "account suspension", "verify immediately",
   "click here to claim", "limited time offer", "will be blocked",
   "share your upi", "share upi", "avoid suspension", "blocked today",
   "verify now", "account will be", "bank account blocked"]

/-- Canned engagement replies (`FallbackLLMClient.ENGAGEMENT_RESPONSES`). -/
def ENGAGEMENT_RESPONSES : List String :=
  ["Ji ji, main samajh raha hoon. Kripya thoda aur batayein.",
   "Acha ji? Ye toh bahut acchi baat hai! Mujhe kya karna hoga?",
   "Main thoda confused hoon, aap zaroor genuine honge. Batayein kaise aage badhein?",
   "Shukriya ji aapka. Mujhe trust hai aap par. Details share karein please.",
   "Haan ji bilkul. Main ready hoon. Aap batayein kya karna hai.",
   "Ye account number ya UPI ID bata dijiye jahan payment karni hai.",
   "Main abhi kar deta hoon. Bas confirmation ke liye ek baar repeat kar dijiye.",
   "Ji haan, main senior citizen hoon. Technology mein thoda weak hoon. Help kar dijiye."]

/-- End markers of the `MESSAGE:` section. -/
def MESSAGE_END_MARKERS : List String :=
  ["SENDER:", "CHANNEL:", "TIMESTAMP:", "CONVERSATION"]

/-- End markers of the `CONVERSATION HISTORY:` section (the third is the
opening-brace character). -/
def CONV_END_MARKERS : List String :=
  ["Respond with", "Remember:", String.mk [lbrace], "JSON"]

/-- Extract the trimmed substring that follows `startMarker` up to the
earliest of the `endMarkers` (or the end of the text), the marker-scraping
step of `_detect_scam`; empty when the start marker is absent. -/
def extractBetween (text startMarker : List Char) (endMarkers : List String) : List Char :=
  match pyFind text startMarker with
  | none => []
  | some i =>
    let start := i + startMarker.length
    let stop := endMarkers.foldl (fun e m =>
      match pyFindFrom text m.data start with
      | some p => if p < e then p else e
      | none => e) text.length
    pyStrip (pySlice text start stop)

/-- The analysis window of `_detect_scam`: lowercased concatenation of the
extracted message text and conversation-history text. -/
def full_context (text : List Char) : List Char :=
  lowerL (extractBetween text "MESSAGE:".data MESSAGE_END_MARKERS ++
    ' ' :: extractBetween text "CONVERSATION HISTORY:".data CONV_END_MARKERS)

/-- Number of keywords of `kws` occurring as substrings of `ctx`. -/
def countKeywords (ctx : List Char) (kws : List String) : Nat :=
  (kws.filter (fun k => isSubB k.data ctx)).length

/-- Risk bucketing used both by `_detect_scam` and as the reference monotone
bucket of §4.2/§4.3 of the specification. -/
def risk_of (confidence : ℚ) : String :=
  if 0.7 < confidence then "high" else if 0.4 < confidence then "medium" else "low"

/-- The verdict computed by `FallbackLLMClient._detect_scam` before JSON
serialization. -/
def detect_scam_analysis (text : List Char) : ScamAnalysis :=
  let ctx := full_context text
  let high := countKeywords ctx high_confidence_keywords
  let reg := countKeywords ctx SCAM_KEYWORDS
  let confidence : ℚ :=
    if 1 ≤ high then min 0.95 (0.5 + (high : ℚ) * 0.2) else min 0.95 ((reg : ℚ) * 0.1)
  let is_scam : Bool :=
    if 1 ≤ high then true else decide (3 ≤ reg) && decide ((0.25 : ℚ) < confidence)
  let scam_type : Option String :=
    if is_scam then
      if ["prize", "lottery", "winner", "won"].any (fun k => isSubB k.data ctx) then
        some "lottery_scam"
      else if ["kyc", "verify", "blocked", "suspended"].any (fun k => isSubB k.data ctx) then
        some "kyc_scam"
      else if ["bank", "transfer", "upi", "payment"].any (fun k => isSubB k.data ctx) then
        some "financial_scam"
      else if ["job", "work from home", "investment"].any (fun k => isSubB k.data ctx) then
        some "job_investment_scam"
      else some "unknown"
    else none
  let reasoning := "Detected " ++ natToDecimal high ++ " high-confidence and " ++
    natToDecimal reg ++ " regular scam indicators"
  ⟨is_scam, confidence, scam_type, reasoning, risk_of confidence⟩

/-- JSON form of a verdict, with the exact field order of the `result` dict
built by `_detect_scam`. -/
def analysisJson (a : ScamAnalysis) : Json :=
  Json.obj
    [("is_scam", Json.bool a.is_scam),
     ("confidence", Json.num a.confidence),
     ("scam_type", match a.scam_type with | none => Json.null | some s => Json.str s),
     ("reasoning", Json.str a.reasoning),
     ("risk_level", Json.str a.risk_level)]

/-- Model of `FallbackLLMClient._detect_scam`: the serialized verdict. -/
def detect_scam (text : List Char) : String :=
  renderJson (analysisJson (detect_scam_analysis text))

/-- Model of `FallbackLLMClient.generate`. The pseudo-random choice of the
engagement branch is injected as `randIdx` (`random.choice` over the fixed
pool). -/
def fallback_generate (randIdx : Nat) (prompt : String) : String :=
  let lp := lowerL prompt.data
  if isSubB "analyze".data lp && isSubB "scam".data lp then detect_scam prompt.data
  else (ENGAGEMENT_RESPONSES.getD (randIdx % ENGAGEMENT_RESPONSES.length) "")

/-! ### ScamDetector parsing and degradation -/

/-- Strip a fenced markdown block: the cleaning step of
`ScamDetector._parse_response`. -/
def tickFence : String :=
  String.mk [btick, btick, btick]

/-- Model of the response cleaning in `_parse_response`: strip, and if the
result starts with a fence, drop every line that itself starts with a
fence. -/
def cleanResponse (response : String) : String :=
  let cleaned := String.mk (pyStrip response.data)
  if isPrefB tickFence.data cleaned.data then
    let lines := cleaned.splitOn "\n"
    let lines := lines.filter (fun ln => !(isPrefB tickFence.data (pyStrip ln.data)))
    String.intercalate "\n" lines
  else cleaned

/-- Python `float(x)` on a JSON value: numbers and booleans convert; numeric
strings are parsed with the number grammar; anything else raises. -/
def pyFloat : Json → Except String ℚ
  | Json.num q => Except.ok q
  | Json.bool b => Except.ok (if b then 1 else 0)
  | Json.str s =>
    match parseNumber (pyStrip s.data) with
    | some (q, []) => Except.ok q
    | _ => Except.error "could not convert string to float"
  | _ => Except.error "float() argument must be a string or a real number"

/-- Python `dict.get` (with duplicate keys, the last wins, as in
`json.loads`). -/
def objGet (fields : List (String × Json)) (k : String) : Option Json :=
  fields.foldl (fun acc kv => if kv.1 = k then some kv.2 else acc) none

/-- Pydantic validation of the `is_scam` field (`bool`); coercions of
non-boolean JSON values are modelled as validation errors (no claim depends
on lax coercion). -/
def asBool : Json → Except String Bool
  | Json.bool b => Except.ok b
  | _ => Except.error "validation error for is_scam"

/-- Pydantic validation of `scam_type` (`Optional[str]`). -/
def asOptStr : Json → Except String (Option String)
  | Json.null => Except.ok none
  | Json.str s => Except.ok (some s)
  | _ => Except.error "validation error for scam_type"

/-- Pydantic validation of a `str` field. -/
def asStr : Json → Except String String
  | Json.str s => Except.ok s
  | _ => Except.error "validation error for str field"

/-- Model of `ScamDetector._parse_response`. A `json.JSONDecodeError` (and
only that) is recovered into the substring heuristic over the lowercased raw
response; exceptions of the field conversions propagate (`Except.error`). -/
def parse_response (response : String) : Except String ScamAnalysis :=
  match parseJson (cleanResponse response) with
  | Except.ok (Json.obj fields) => do
    let is_scam ← match objGet fields "is_scam" with
      | none => Except.ok false
      | some v => asBool v
    let confidence ← match objGet fields "confidence" with
      | none => Except.ok (0 : ℚ)
      | some v => pyFloat v
    let scam_type ← match objGet fields "scam_type" with
      | none => Except.ok none
      | some v => asOptStr v
    let reasoning ← match objGet fields "reasoning" with
      | none => Except.ok "No reasoning provided"
      | some v => asStr v
    let risk_level ← match objGet fields "risk_level" with
      | none => Except.ok "low"
      | some v => asStr v
    Except.ok ⟨is_scam, confidence, scam_type, reasoning, risk_level⟩
  | Except.ok _ => Except.error "object has no attribute get"
  | Except.error _ =>
    let response_lower := String.mk (lowerL response.data)
    let is_scam := containsStr response_lower "true" && containsStr response_lower "is_scam"
    Except.ok
      ⟨is_scam, if is_scam then 0.5 else 0.2,
       if is_scam then some "unknown" else none,
       "Parsed from unstructured response",
       if is_scam then "medium" else "low"⟩

/-- The safe default verdict of `ScamDetector.detect`'s exception handler. -/
def errorVerdict (e : String) : ScamAnalysis :=
  ⟨false, 0, none, "Detection error: " ++ e, "low"⟩

/-- Model of `ScamDetector.detect` downstream of the prompt build: the
backend call either produced a response or raised (`Except.error`); every
exception — from the backend or from response parsing — is absorbed into the
safe default verdict. -/
def detect (backendResult : Except String String) : ScamAnalysis :=
  match backendResult with
  | Except.error e => errorVerdict e
  | Except.ok response =>
    match parse_response response with
    | Except.ok a => a
    | Except.error e => errorVerdict e

/-! ### Predicates used by the claims -/

/-- A run of `detect` fails internally with message `e`: either the backend
call raised, or the backend responded and response parsing raised. -/
def failsWith (r : Except String String) (e : String) : Prop :=
  r = Except.error e ∨ ∃ resp, r = Except.ok resp ∧ parse_response resp = Except.error e

/-- Non-digit test on an optional character (string edges count as
non-digits). -/
def notDigitOpt : Option Char → Bool
  | none => true
  | some c => !c.isDigit

/-- The text contains `run` as a maximal digit run: an occurrence of the
all-digit `run` delimited by non-digits or the string edges. -/
def maximalDigitRun (text run : List Char) : Prop :=
  ∃ pre post, text = pre ++ run ++ post ∧ run.all (fun c => c.isDigit) = true ∧
    notDigitOpt pre.getLast? = true ∧ notDigitOpt post.head? = true

/-- Boolean suffix test. -/
def isSuffB (n h : List Char) : Bool :=
  isPrefB n.reverse h.reverse

/-- Claim C5's suspicion predicate as the specification words it, clause (c)
reading "ends in a suspicious top-level domain" (the code's counterpart is
`urlSuspicious`, which tests substring containment instead). -/
def specSuspiciousEndsTld (url_lower : List Char) : Bool :=
  SUSPICIOUS_INDICATORS.any (fun d => isSubB d.data url_lower) ||
    url_shorteners.any (fun d => isSubB d.data url_lower) ||
    suspicious_tlds.any (fun t => isSuffB t.data url_lower)

/-- Claim C4's acceptance condition as the specification words it: the domain
fragment exactly matches, or contains, a whitelist member, or contains
`upi`/`pay`, or the candidate is of ten-digits-then-`@` shape (the code's
counterpart, `upiSuffixAccept`, tests exact whitelist membership only). -/
def specUpiAccept (cand : List Char) : Bool :=
  VALID_UPI_SUFFIXES.any (fun s => isSubB s.data (suffixAfterAt cand)) ||
    isSubB "upi".data (suffixAfterAt cand) || isSubB "pay".data (suffixAfterAt cand) ||
    phoneAtShape cand

/-- The Verdict invariant of claim C9: confidence within `[0,1]` and
`risk_level` equal to the monotone bucket of the confidence. -/
def verdictInv (a : ScamAnalysis) : Prop :=
  0 ≤ a.confidence ∧ a.confidence ≤ 1 ∧ a.risk_level = risk_of a.confidence

/-- Characters that `json.dumps` emits verbatim and `parseStringBody` reads
verbatim. -/
def safeChar (c : Char) : Bool :=
  !(c = qchar || c = bslash || decide (c.toNat < 32) || decide (127 ≤ c.toNat))

/-- Round-trip property of a number rendering: inside an object, the rendered
confidence followed by a field separator (comma or closing brace) parses back
to exactly the same rational. -/
def qValRoundTrip (q : ℚ) : Prop :=
  ∀ (fuel : Nat) (c0 : Char) (tail : List Char), c0 = ',' ∨ c0 = rbrace →
    parseValue (fuel + 1) (' ' :: (qRepr q).data ++ c0 :: tail) =
      some (Json.num q, c0 :: tail)

/-- One field of a flat JSON object parses back: the key is safely renderable
and the rendered value, followed by a field separator, parses to the value. -/
def fieldStep (k : String) (v : Json) : Prop :=
  k.data.all safeChar = true ∧
  ∀ (fuel : Nat) (c0 : Char) (tail : List Char), c0 = ',' ∨ c0 = rbrace →
    parseValue (fuel + 1) (' ' :: (renderJson v).data ++ c0 :: tail) = some (v, c0 :: tail)

/-- Concrete prompt used by witnesses for the rule-based classification
mode. -/
def promptExample : String :=
  "analyze for scam MESSAGE: verify now to avoid suspension SENDER: scammer"

/-- Concrete well-formed backend response with an out-of-range confidence
(the structured parse path copies it unvalidated). -/
def c9resp : String :=
  "\x7b\"is_scam\": true, \"confidence\": 5.0, \"risk_level\": \"low\"\x7d"

theorem substrOf_refl (l : List Char) : substrOf l l :=
  ⟨[], [], by simp⟩

theorem substrOf_trans {a b c : List Char} (h₁ : substrOf a b) (h₂ : substrOf b c) :
    substrOf a c := by
  obtain ⟨p₁, q₁, rfl⟩ := h₁
  obtain ⟨p₂, q₂, rfl⟩ := h₂
  exact ⟨p₂ ++ p₁, q₁ ++ q₂, by simp⟩

theorem substrOf_of_append_right {n rest : List Char} : substrOf n (n ++ rest) :=
  ⟨[], rest, rfl⟩

theorem substrOf_cons {n cs : List Char} (c : Char) (h : substrOf n cs) :
    substrOf n (c :: cs) := by
  obtain ⟨p, q, rfl⟩ := h
  exact ⟨c :: p, q, rfl⟩

theorem substrOf_length_le {n h : List Char} (hs : substrOf n h) :
    n.length ≤ h.length := by
  obtain ⟨p, q, rfl⟩ := hs
  simp only [List.length_append]
  omega

theorem isPrefB_iff (n l : List Char) :
    isPrefB n l = true ↔ ∃ rest, l = n ++ rest := by
  induction n generalizing l with
  | nil => simp [isPrefB]
  | cons a as ih =>
    cases l with
    | nil => simp [isPrefB]
    | cons b bs =>
      simp only [isPrefB, Bool.and_eq_true, decide_eq_true_eq, ih]
      constructor
      · rintro ⟨rfl, rest, rfl⟩
        exact ⟨rest, rfl⟩
      · rintro ⟨rest, h⟩
        cases h
        exact ⟨rfl, rest, rfl⟩

theorem isSubB_iff (n h : List Char) : isSubB n h = true ↔ substrOf n h := by
  induction h with
  | nil =>
    simp only [isSubB, List.isEmpty_iff, substrOf]
    constructor
    · rintro rfl
      exact ⟨[], [], rfl⟩
    · rintro ⟨pre, post, hh⟩
      cases pre <;> simp_all
  | cons b bs ih =>
    simp only [isSubB, Bool.or_eq_true, ih, isPrefB_iff]
    constructor
    · rintro (⟨rest, h⟩ | h)
      · exact ⟨[], rest, by simp [h]⟩
      · exact substrOf_cons b h
    · rintro ⟨pre, post, hh⟩
      cases pre with
      | nil =>
        exact Or.inl ⟨post, by simpa using hh⟩
      | cons p ps =>
        simp only [List.cons_append] at hh
        cases hh
        exact Or.inr ⟨ps, post, rfl⟩

theorem dropWhile_substrOf (p : Char → Bool) (l : List Char) :
    substrOf (l.dropWhile p) l := by
  induction l with
  | nil => exact substrOf_refl _
  | cons c cs ih =>
    by_cases h : p c
    · simpa [List.dropWhile, h] using substrOf_cons c ih
    · simp only [List.dropWhile, h]
      exact substrOf_refl _

theorem reverse_substrOf {a b : List Char} (h : substrOf a b) :
    substrOf a.reverse b.reverse := by
  obtain ⟨p, q, rfl⟩ := h
  exact ⟨q.reverse, p.reverse, by simp⟩

theorem stripWhile_substrOf (p : Char → Bool) (l : List Char) :
    substrOf (stripWhile p l) l := by
  have h₁ : substrOf (l.dropWhile p) l := dropWhile_substrOf p l
  have h₂ : substrOf ((l.dropWhile p).reverse.dropWhile p) (l.dropWhile p).reverse :=
    dropWhile_substrOf p _
  have h₃ := reverse_substrOf h₂
  simp only [List.reverse_reverse] at h₃
  exact substrOf_trans h₃ h₁

theorem mem_dedupFirstAux {x : String} :
    ∀ (seen l : List String), x ∈ dedupFirstAux seen l → x ∈ l := by
  intro seen l
  induction l generalizing seen with
  | nil => simp [dedupFirstAux]
  | cons y ys ih =>
    simp only [dedupFirstAux]
    by_cases h : seen.contains y
    · simp only [h, if_true]
      intro hm
      exact List.mem_cons_of_mem _ (ih seen hm)
    · simp only [h, if_false]
      intro hm
      rcases List.mem_cons.mp hm with hx | hm'
      · exact hx ▸ List.mem_cons_self _ _
      · exact List.mem_cons_of_mem _ (ih _ hm')

theorem mem_dedupFirst {x : String} {l : List String} (h : x ∈ dedupFirst l) : x ∈ l :=
  mem_dedupFirstAux [] l h

/-- Every match emitted by the driver is a contiguous substring of the input,
provided the matcher splits its input into match and rest. -/
theorem reFindAux_substrOf
    (tryM : Option Char → List Char → Option (List Char × List Char))
    (hsplit : ∀ prev l m rest, tryM prev l = some (m, rest) → m ++ rest = l) :
    ∀ (fuel : Nat) (prev : Option Char) (l m : List Char),
      m ∈ reFindAux tryM fuel prev l → substrOf m l := by
  intro fuel
  induction fuel with
  | zero => intro prev l m h; simp [reFindAux] at h
  | succ n ih =>
    intro prev l m h
    cases l with
    | nil => simp [reFindAux] at h
    | cons c cs =>
      simp only [reFindAux] at h
      cases htry : tryM prev (c :: cs) with
      | none =>
        rw [htry] at h
        exact substrOf_cons c (ih (some c) cs m h)
      | some pr =>
        obtain ⟨m0, rest⟩ := pr
        rw [htry] at h
        have hsp := hsplit prev (c :: cs) m0 rest htry
        rcases List.mem_cons.mp h with rfl | hmem
        · exact ⟨[], rest, hsp.symm⟩
        · have hsub : substrOf m rest := ih _ rest m hmem
          have : substrOf rest (c :: cs) := by
            refine substrOf_trans ?_ (substrOf_refl (c :: cs))
            rw [← hsp]
            exact ⟨m0, [], by simp⟩
          exact substrOf_trans hsub this

theorem reFindall_substrOf
    (tryM : Option Char → List Char → Option (List Char × List Char))
    (hsplit : ∀ prev l m rest, tryM prev l = some (m, rest) → m ++ rest = l)
    {l m : List Char} (h : m ∈ reFindall tryM l) : substrOf m l :=
  reFindAux_substrOf tryM hsplit _ none l m h

theorem upiTryMatch_split (prev : Option Char) (l m rest : List Char)
    (h : upiTryMatch prev l = some (m, rest)) : m ++ rest = l := by
  cases l with
  | nil => simp [upiTryMatch] at h
  | cons c cs =>
    simp only [upiTryMatch] at h
    split at h
    · exact absurd h (by simp)
    · split at h
      · exact absurd h (by simp)
      · split at h
        · exact absurd h (by simp)
        · split at h
          · exact absurd h (by simp)
          · split at h
            · obtain ⟨rfl, rfl⟩ : _ ∧ _ := by
                have := Option.some.inj h
                exact ⟨congrArg Prod.fst this, congrArg Prod.snd this⟩
              exact List.take_append_drop _ _
            · exact absurd h (by simp)

theorem bankTryMatch_split (prev : Option Char) (l m rest : List Char)
    (h : bankTryMatch prev l = some (m, rest)) : m ++ rest = l := by
  cases l with
  | nil => simp [bankTryMatch] at h
  | cons c cs =>
    simp only [bankTryMatch] at h
    split at h
    · exact absurd h (by simp)
    · split at h
      · exact absurd h (by simp)
      · split at h
        · split at h
          · obtain ⟨rfl, rfl⟩ : _ ∧ _ := by
              have := Option.some.inj h
              exact ⟨congrArg Prod.fst this, congrArg Prod.snd this⟩
            exact List.take_append_drop _ _
          · exact absurd h (by simp)
        · exact absurd h (by simp)

theorem ifscTryMatch_split (prev : Option Char) (l m rest : List Char)
    (h : ifscTryMatch prev l = some (m, rest)) : m ++ rest = l := by
  cases l with
  | nil => simp [ifscTryMatch] at h
  | cons c cs =>
    simp only [ifscTryMatch] at h
    split at h
    · exact absurd h (by simp)
    · split at h
      · exact absurd h (by simp)
      · split at h
        · obtain ⟨rfl, rfl⟩ : _ ∧ _ := by
            have := Option.some.inj h
            exact ⟨congrArg Prod.fst this, congrArg Prod.snd this⟩
          exact List.take_append_drop _ _
        · exact absurd h (by simp)

theorem urlTryMatch_split (prev : Option Char) (l m rest : List Char)
    (h : urlTryMatch prev l = some (m, rest)) : m ++ rest = l := by
  simp only [urlTryMatch] at h
  split at h
  · split at h
    · exact absurd h (by simp)
    · obtain ⟨rfl, rfl⟩ : _ ∧ _ := by
        have := Option.some.inj h
        exact ⟨congrArg Prod.fst this, congrArg Prod.snd this⟩
      exact List.take_append_drop _ _
  · split at h
    · split at h
      · exact absurd h (by simp)
      · obtain ⟨rfl, rfl⟩ : _ ∧ _ := by
          have := Option.some.inj h
          exact ⟨congrArg Prod.fst this, congrArg Prod.snd this⟩
        exact List.take_append_drop _ _
    · split at h
      · split at h
        · exact absurd h (by simp)
        · obtain ⟨rfl, rfl⟩ : _ ∧ _ := by
            have := Option.some.inj h
            exact ⟨congrArg Prod.fst this, congrArg Prod.snd this⟩
          exact List.take_append_drop _ _
      · exact absurd h (by simp)

/-! ### Claim C1 -/

/-- C1: the Classifier's `detect` never raises; whenever the backend call or
any later internal step fails with an exception `e`, it returns the safe
default verdict `is_scam=false, confidence=0, scam_type=none`, reasoning
`"Detection error: " ++ e` (hence beginning with `"Detection error: "`), and
`risk_level="low"`. Totality of `detect` is the never-raises part of the
claim: every failure is a value of the `Except` argument. -/
theorem c1_detect_degrades_to_default (r : Except String String) (e : String)
    (h : failsWith r e) :
    detect r = ⟨false, 0, none, "Detection error: " ++ e, "low"⟩ := by
  rcases h with rfl | ⟨resp, rfl, hp⟩
  · rfl
  · simp [detect, hp, errorVerdict]

/-- Witness for C1 at a concrete failing backend call. -/
theorem c1_witness :
    detect (Except.error "boom") =
      ⟨false, 0, none, "Detection error: " ++ "boom", "low"⟩ :=
  c1_detect_degrades_to_default (Except.error "boom") "boom" (Or.inl rfl)

/-! ### Claim C6 -/

/-- C6: for every backend response whose structured (JSON) parse fails, the
parse step returns the heuristic verdict obtained by scanning the lowercase
raw text for the tokens "true" and "is_scam": if both occur it is
`is_scam=true, confidence=0.5, scam_type="unknown", risk_level="medium"`,
otherwise `is_scam=false, confidence=0.2, scam_type=none, risk_level="low"`;
in both cases the reasoning is "Parsed from unstructured response". -/
theorem c6_parse_failure_heuristic (response msg : String)
    (h : parseJson (cleanResponse response) = Except.error msg) :
    parse_response response =
      Except.ok
        ⟨containsStr (String.mk (lowerL response.data)) "true" &&
            containsStr (String.mk (lowerL response.data)) "is_scam",
          if containsStr (String.mk (lowerL response.data)) "true" &&
              containsStr (String.mk (lowerL response.data)) "is_scam" then 0.5 else 0.2,
          if containsStr (String.mk (lowerL response.data)) "true" &&
              containsStr (String.mk (lowerL response.data)) "is_scam" then
            some "unknown" else none,
          "Parsed from unstructured response",
          if containsStr (String.mk (lowerL response.data)) "true" &&
              containsStr (String.mk (lowerL response.data)) "is_scam" then
            "medium" else "low"⟩ := by
  unfold parse_response
  rw [h]

/-- Witness for C6: a concrete unparseable response containing both tokens. -/
theorem c6_witness :
    parse_response "surely true is_scam yes" =
      Except.ok ⟨true, 0.5, some "unknown", "Parsed from unstructured response", "medium"⟩ := by
  have h := c6_parse_failure_heuristic "surely true is_scam yes" "Expecting value" rfl
  exact h.trans (by rfl)

/-! ### Claim C7 -/

/-- C7: for every input text, each of the three lists returned by
`extract_all` has length at most ten. -/
theorem c7_lists_capped (text : String) :
    (extract_all text).bankAccounts.length ≤ 10 ∧
    (extract_all text).upiIds.length ≤ 10 ∧
    (extract_all text).phishingLinks.length ≤ 10 := by
  refine ⟨?_, ?_, ?_⟩ <;>
    simp only [extract_all, List.length_take] <;>
    omega

/-! ### Claim C2 -/

/-- C2: for every analysis window (the lowercased concatenation of extracted
message and history text), the rule-based verdict satisfies the decision rule
of the specification: with at least one high-confidence match, `is_scam=true`
and `confidence = min 0.95 (0.5 + 0.2*highCount)`; otherwise
`confidence = min 0.95 (0.1*regularCount)` and `is_scam` holds exactly when
`regularCount ≥ 3` and `confidence > 0.25`; and `risk_level` is "high" above
0.7, "medium" above 0.4, else "low". -/
theorem c2_rule_based_decision (text : List Char) :
    (if 1 ≤ countKeywords (full_context text) high_confidence_keywords then
      (detect_scam_analysis text).is_scam = true ∧
      (detect_scam_analysis text).confidence =
        min 0.95 (0.5 + (countKeywords (full_context text) high_confidence_keywords : ℚ) * 0.2)
    else
      (detect_scam_analysis text).confidence =
        min 0.95 ((countKeywords (full_context text) SCAM_KEYWORDS : ℚ) * 0.1) ∧
      (detect_scam_analysis text).is_scam =
        (decide (3 ≤ countKeywords (full_context text) SCAM_KEYWORDS) &&
          decide ((0.25 : ℚ) < (detect_scam_analysis text).confidence))) ∧
    (detect_scam_analysis text).risk_level =
      (if (0.7 : ℚ) < (detect_scam_analysis text).confidence then "high"
       else if (0.4 : ℚ) < (detect_scam_analysis text).confidence then "medium"
       else "low") := by
  by_cases h : 1 ≤ countKeywords (full_context text) high_confidence_keywords <;>
    simp [detect_scam_analysis, risk_of, h]

/-! ### Claim C8 -/

/-- C8: a maximal ten-digit run whose first digit is 6–9 (with no bank-context
keyword in the surrounding window) never appears in the `bankAccounts` list of
`extract_all`; the mobile-number filter discards it before the context
check. -/
theorem c8_mobile_run_not_extracted (text run : String)
    (hmax : maximalDigitRun text.data run.data)
    (hlen : run.data.length = 10)
    (hfirst : startsMobileDigit run.data = true)
    (hctx : has_bank_context text.data run.data = false) :
    run ∉ (extract_all text).bankAccounts := by
  intro hmem
  simp only [extract_all] at hmem
  have hmem' := List.take_subset _ _ hmem
  rcases List.mem_append.mp hmem' with hL | hR
  · have h1 := mem_dedupFirst hL
    rcases List.mem_map.mp h1 with ⟨l, hl, hmk⟩
    subst hmk
    have hlen' : l.length = 10 := hlen
    have hfirst' : startsMobileDigit l = true := hfirst
    have hf := (List.mem_filter.mp hl).2
    simp [bankAccountAccept, hlen', hfirst'] at hf
  · rcases List.mem_map.mp hR with ⟨c, _, hmk⟩
    rw [← hmk] at hfirst
    rw [String.data_append] at hfirst
    have hfalse : startsMobileDigit ("IFSC: ".data ++ c.data) = false := rfl
    rw [hfalse] at hfirst
    exact absurd hfirst (by simp)

/-- Witness for C8 at a concrete text containing a mobile-looking run. -/
theorem c8_witness :
    "9876543210" ∉ (extract_all "call 9876543210 now").bankAccounts :=
  c8_mobile_run_not_extracted "call 9876543210 now" "9876543210"
    ⟨"call ".data, " now".data, by decide, by decide, by decide, by decide⟩
    (by decide) (by decide) (by decide)

/-! ### Claim C4 -/

/-- C4 (amended): a payment-handle candidate found by the UPI pattern whose
domain fragment is not e-mail-like is included in the result of
`_extract_upi_ids` exactly when its domain fragment is an exact member of
the whitelist, or contains "upi" or "pay" as a substring, or the candidate
begins with ten digits followed by `@`. (The original claim's "or contains a
member of the whitelist" direction is refuted by `c4_counterexample`.) -/
theorem c4_upi_inclusion_exact (text cand : List Char)
    (hc : cand ∈ reFindall upiTryMatch text)
    (he : is_likely_email cand = false) :
    cand ∈ extract_upi_ids text ↔ (upiSuffixAccept cand || phoneAtShape cand) = true := by
  unfold extract_upi_ids
  rw [List.mem_filter]
  simp [hc, he]

/-- Witness for C4: a whitelisted handle is accepted. -/
theorem c4_witness :
    "fraud@ybl".data ∈ extract_upi_ids "Send to fraud@ybl now".data :=
  (c4_upi_inclusion_exact "Send to fraud@ybl now".data "fraud@ybl".data
    (by decide) (by decide)).mpr (by decide)

/-- Counterexample to C4 as stated: the candidate `abc@myybl` is matched by
the pattern, is not e-mail-like, and its domain fragment contains the
whitelist member `ybl`, yet it is not included in `upiIds` (the code tests
exact membership, not containment). -/
theorem c4_counterexample :
    "abc@myybl".data ∈ reFindall upiTryMatch "send to abc@myybl today".data ∧
    is_likely_email "abc@myybl".data = false ∧
    specUpiAccept "abc@myybl".data = true ∧
    (extract_all "send to abc@myybl today").upiIds = [] := by
  exact ⟨by decide, by decide, by decide, by decide⟩

/-! ### Claim C5 -/

/-- C5 (amended): a URL candidate (trimmed of surrounding punctuation) whose
lowercased form contains no legitimate-domain entry is included in the result
of `_extract_phishing_links` exactly when its lowercased form contains a
suspicious keyword, a URL-shortener domain, or a suspicious TLD string as a
substring. (The original claim's "ends in a suspicious top-level domain"
reading of the third clause is refuted by `c5_counterexample`.) -/
theorem c5_phishing_inclusion (text u : List Char)
    (hc : u ∈ (reFindall urlTryMatch text).map stripPunct)
    (hl : is_legitimate_domain (lowerL u) = false) :
    u ∈ extract_phishing_links text ↔ urlSuspicious (lowerL u) = true := by
  unfold extract_phishing_links
  rw [List.mem_filter]
  simp [hc, hl]

/-- Witness for C5: a non-whitelisted URL containing the keyword "verify". -/
theorem c5_witness :
    "http://fake-bank.xyz/verify".data ∈
      extract_phishing_links "Click http://fake-bank.xyz/verify".data :=
  (c5_phishing_inclusion "Click http://fake-bank.xyz/verify".data
    "http://fake-bank.xyz/verify".data (by decide) (by decide)).mpr (by decide)

/-- Counterexample to C5 as stated: `http://a.tk.example.org` contains the
TLD string `.tk` in the middle but ends in `.org`, contains no suspicious
keyword and no shortener, and is not whitelisted; the code includes it in the
phishing list although the claim's condition (with "ends in a suspicious
TLD") is false. -/
theorem c5_counterexample :
    "http://a.tk.example.org".data ∈
      extract_phishing_links "visit http://a.tk.example.org now".data ∧
    is_legitimate_domain (lowerL "http://a.tk.example.org".data) = false ∧
    specSuspiciousEndsTld (lowerL "http://a.tk.example.org".data) = false := by
  exact ⟨by decide, by decide, by decide⟩

/-! ### Claim C3 -/

/-- C3 (amended): every entry of `upiIds` and `phishingLinks` is a contiguous
substring of the source text; every entry of `bankAccounts` is either such a
substring or the literal label `"IFSC: "` prepended to such a substring. (The
original claim — every `bankAccounts` entry is itself a substring — is
refuted by `c3_counterexample`.) -/
theorem c3_entries_substrings (text : String) :
    (∀ u ∈ (extract_all text).upiIds, substrOf u.data text.data) ∧
    (∀ p ∈ (extract_all text).phishingLinks, substrOf p.data text.data) ∧
    (∀ b ∈ (extract_all text).bankAccounts,
      substrOf b.data text.data ∨
        ∃ c : String, b = "IFSC: " ++ c ∧ substrOf c.data text.data) := by
  refine ⟨?_, ?_, ?_⟩
  · intro u hu
    simp only [extract_all] at hu
    have h1 := mem_dedupFirst (List.take_subset _ _ hu)
    rcases List.mem_map.mp h1 with ⟨l, hl, rfl⟩
    have h2 := (List.mem_filter.mp hl).1
    exact reFindall_substrOf upiTryMatch upiTryMatch_split h2
  · intro p hp
    simp only [extract_all] at hp
    have h1 := mem_dedupFirst (List.take_subset _ _ hp)
    rcases List.mem_map.mp h1 with ⟨l, hl, rfl⟩
    have h2 := (List.mem_filter.mp hl).1
    rcases List.mem_map.mp h2 with ⟨l0, h0, rfl⟩
    exact substrOf_trans (stripWhile_substrOf _ l0)
      (reFindall_substrOf urlTryMatch urlTryMatch_split h0)
  · intro b hb
    simp only [extract_all] at hb
    have hb' := List.take_subset _ _ hb
    rcases List.mem_append.mp hb' with hL | hR
    · have h1 := mem_dedupFirst hL
      rcases List.mem_map.mp h1 with ⟨l, hl, rfl⟩
      have h2 := (List.mem_filter.mp hl).1
      exact Or.inl (reFindall_substrOf bankTryMatch bankTryMatch_split h2)
    · rcases List.mem_map.mp hR with ⟨c, hc, rfl⟩
      rcases List.mem_map.mp hc with ⟨cl, hcl, rfl⟩
      exact Or.inr ⟨String.mk cl, rfl, reFindall_substrOf ifscTryMatch ifscTryMatch_split hcl⟩

/-- Witness for C3 at a concrete extraction. -/
theorem c3_witness :
    substrOf "fraud@ybl".data "Send to fraud@ybl now".data :=
  (c3_entries_substrings "Send to fraud@ybl now").1 "fraud@ybl" (by decide)

/-- Counterexample to C3 as stated: on input `HDFC0123456` the `bankAccounts`
list contains the synthesized entry `IFSC: HDFC0123456`, which is not a
substring of the input. -/
theorem c3_counterexample :
    (extract_all "HDFC0123456").bankAccounts = ["IFSC: HDFC0123456"] ∧
    ¬ substrOf "IFSC: HDFC0123456".data "HDFC0123456".data := by
  refine ⟨by decide, fun h => ?_⟩
  have hle := substrOf_length_le h
  have h1 : ("IFSC: HDFC0123456").data.length = 17 := by decide
  have h2 : ("HDFC0123456").data.length = 11 := by decide
  omega

/-! ### JSON round-trip lemmas -/

theorem escapeChar_safe {c : Char} (h : safeChar c = true) : escapeChar c = [c] := by
  simp only [safeChar, Bool.not_eq_true', Bool.or_eq_false_iff,
    decide_eq_false_iff_not] at h
  obtain ⟨⟨⟨h1, h2⟩, h3⟩, h4⟩ := h
  have hn : c ≠ '\n' := fun hc => h3 (by subst hc; decide)
  have ht : c ≠ '\t' := fun hc => h3 (by subst hc; decide)
  have hr : c ≠ '\r' := fun hc => h3 (by subst hc; decide)
  have hb : c ≠ Char.ofNat 8 := fun hc => h3 (by subst hc; decide)
  have hf : c ≠ Char.ofNat 12 := fun hc => h3 (by subst hc; decide)
  simp [escapeChar, h1, h2, hn, ht, hr, hb, hf, h3, h4]

theorem escape_flatten_safe : ∀ {cs : List Char}, cs.all safeChar = true →
    (cs.map escapeChar).flatten = cs := by
  intro cs
  induction cs with
  | nil => intro _; simp
  | cons c cs ih =>
    intro h
    rw [List.all_cons, Bool.and_eq_true] at h
    simp [escapeChar_safe h.1, ih h.2]

theorem renderString_data_safe {s : String} (h : s.data.all safeChar = true) :
    (renderString s).data = qchar :: s.data ++ [qchar] := by
  simp [renderString, escape_flatten_safe h]

theorem parseStringBody_safe : ∀ (cs : List Char), cs.all safeChar = true →
    ∀ (tail : List Char), parseStringBody (cs ++ qchar :: tail) = some (cs, tail) := by
  intro cs
  induction cs with
  | nil =>
    intro _ tail
    rw [List.nil_append, parseStringBody.eq_def]
    simp
  | cons c cs ih =>
    intro h tail
    rw [List.all_cons, Bool.and_eq_true] at h
    have h1 := h.1
    simp only [safeChar, Bool.not_eq_true', Bool.or_eq_false_iff,
      decide_eq_false_iff_not] at h1
    obtain ⟨⟨⟨hq, hb⟩, h32⟩, _⟩ := h1
    rw [List.cons_append, parseStringBody.eq_def]
    simp [hq, hb, h32, ih h.2, consFst]

theorem skipWs_cons_of {c : Char} (h : jsonWsChar c = false) (l : List Char) :
    skipWs (c :: l) = c :: l := by
  simp [skipWs, List.dropWhile_cons, h]

theorem skipWs_space (l : List Char) : skipWs (' ' :: l) = skipWs l := by
  have h : jsonWsChar ' ' = true := by decide
  simp [skipWs, List.dropWhile_cons, h]

theorem parseValue_true (fuel : Nat) (rest : List Char) :
    parseValue (fuel + 1) (' ' :: 't' :: 'r' :: 'u' :: 'e' :: rest) =
      some (Json.bool true, rest) := rfl

theorem parseValue_false (fuel : Nat) (rest : List Char) :
    parseValue (fuel + 1) (' ' :: 'f' :: 'a' :: 'l' :: 's' :: 'e' :: rest) =
      some (Json.bool false, rest) := rfl

theorem parseValue_null (fuel : Nat) (rest : List Char) :
    parseValue (fuel + 1) (' ' :: 'n' :: 'u' :: 'l' :: 'l' :: rest) =
      some (Json.null, rest) := rfl

theorem takeWhile_all_append {p : Char → Bool} : ∀ {ds : List Char}, ds.all p = true →
    ∀ {c0 : Char}, p c0 = false → ∀ (rest : List Char),
      (ds ++ c0 :: rest).takeWhile p = ds := by
  intro ds
  induction ds with
  | nil => intro _ c0 hc rest; simp [List.takeWhile_cons, hc]
  | cons d ds ih =>
    intro h c0 hc rest
    rw [List.all_cons, Bool.and_eq_true] at h
    simp [List.takeWhile_cons, h.1, ih h.2 hc rest]

theorem parseNumber_frac (ds : List Char) (hne : ds.isEmpty = false)
    (hdig : ds.all (fun x => x.isDigit) = true)
    (c0 : Char) (hc0 : c0.isDigit = false) (hce : ¬ (c0 = 'e' ∨ c0 = 'E'))
    (tail : List Char) :
    parseNumber ('0' :: '.' :: (ds ++ c0 :: tail)) =
      some (mkRat (natOfDigits ds) (10 ^ ds.length), c0 :: tail) := by
  have ht : (ds ++ c0 :: tail).takeWhile (fun x => x.isDigit) = ds :=
    takeWhile_all_append hdig hc0 tail
  have hd : (ds ++ c0 :: tail).drop ds.length = c0 :: tail := List.drop_left ds (c0 :: tail)
  have h0 : natOfDigits ['0'] = 0 := rfl
  simp [parseNumber, List.takeWhile_cons, ht, hd, hne, hc0, hce, h0]

theorem parseValue_num (fuel : Nat) (ds : List Char) (hne : ds.isEmpty = false)
    (hdig : ds.all (fun x => x.isDigit) = true)
    (c0 : Char) (hc0 : c0.isDigit = false) (hce : ¬ (c0 = 'e' ∨ c0 = 'E'))
    (tail : List Char) :
    parseValue (fuel + 1) (' ' :: '0' :: '.' :: (ds ++ c0 :: tail)) =
      some (Json.num (mkRat (natOfDigits ds) (10 ^ ds.length)), c0 :: tail) := by
  have hskip : skipWs (' ' :: '0' :: '.' :: (ds ++ c0 :: tail)) =
      '0' :: '.' :: (ds ++ c0 :: tail) := by
    rw [skipWs_space, skipWs_cons_of (by decide)]
  have hpn := parseNumber_frac ds hne hdig c0 hc0 hce tail
  have e1 : ¬ (('0' : Char) = lbrace) := by decide
  have e2 : ¬ (('0' : Char) = '[') := by decide
  have e3 : ¬ (('0' : Char) = qchar) := by decide
  simp [parseValue, hskip, hpn, e1, e2, e3, isPrefB]

theorem parseValue_str (fuel : Nat) (cs rest : List Char) (h : cs.all safeChar = true) :
    parseValue (fuel + 1) (' ' :: qchar :: cs ++ qchar :: rest) =
      some (Json.str (String.mk cs), rest) := by
  have hsb := parseStringBody_safe cs h rest
  have hskip : skipWs (' ' :: qchar :: (cs ++ qchar :: rest)) = qchar :: (cs ++ qchar :: rest) := by
    rw [skipWs_space, skipWs_cons_of (by decide)]
  have e1 : ¬ (qchar = lbrace) := by decide
  have e2 : ¬ (qchar = '[') := by decide
  simp [parseValue, hskip, hsb, e1, e2]

theorem skipWs_eq_self_of_head {l : List Char} {c : Char} (h : l.head? = some c)
    (hc : jsonWsChar c = false) : skipWs l = l := by
  cases l with
  | nil => rfl
  | cons a as =>
    have : a = c := by simpa using h
    subst this
    exact skipWs_cons_of hc as

theorem renderFields_head (k2 : String) (v2 : Json) (fs : List (String × Json))
    (hk2 : k2.data.all safeChar = true) :
    ((renderFields ((k2, v2) :: fs)).data ++ [rbrace]).head? = some qchar := by
  cases fs with
  | nil => simp [renderFields, renderString_data_safe hk2]
  | cons kv3 fs => simp [renderFields, renderString_data_safe hk2]

theorem renderFields_length_ge : ∀ (k : String) (v : Json) (fs : List (String × Json)),
    2 * fs.length ≤ (renderFields ((k, v) :: fs)).data.length := by
  intro k v fs
  induction fs generalizing k v with
  | nil => simp
  | cons kv2 fs ih =>
    obtain ⟨k2, v2⟩ := kv2
    have h := ih k2 v2
    simp only [renderFields, String.data_append, List.length_append, List.length_cons,
      List.length_nil]
    have hq : 2 ≤ (renderString k).data.length := by
      simp [renderString]
    have hsep : (", ").data.length = 2 := rfl
    have hcolon : (": ").data.length = 2 := rfl
    simp only [List.length] at h ⊢
    omega

theorem pyStrip_eq_self_brace (mid : List Char) :
    pyStrip (lbrace :: (mid ++ [rbrace])) = lbrace :: (mid ++ [rbrace]) := by
  unfold pyStrip stripWhile
  have hl : pyIsSpace lbrace = false := by decide
  have hr : pyIsSpace rbrace = false := by decide
  have h1 : List.dropWhile pyIsSpace (lbrace :: (mid ++ [rbrace])) =
      lbrace :: (mid ++ [rbrace]) := by
    simp [List.dropWhile_cons, hl]
  rw [h1]
  have h2 : (lbrace :: (mid ++ [rbrace])).reverse = rbrace :: (mid.reverse ++ [lbrace]) := by
    simp
  rw [h2]
  have h3 : List.dropWhile pyIsSpace (rbrace :: (mid.reverse ++ [lbrace])) =
      rbrace :: (mid.reverse ++ [lbrace]) := by
    simp [List.dropWhile_cons, hr]
  rw [h3, ← h2, List.reverse_reverse]

theorem parseFields_render_chain : ∀ (fs : List (String × Json)) (k : String) (v : Json),
    fieldStep k v → (∀ kv ∈ fs, fieldStep kv.1 kv.2) →
    ∀ (acc : List (String × Json)) (fuel : Nat), 2 * fs.length + 2 ≤ fuel →
    parseFields fuel ((renderFields ((k, v) :: fs)).data ++ [rbrace]) acc =
      some (Json.obj (acc ++ (k, v) :: fs), []) := by
  intro fs
  induction fs with
  | nil =>
    intro k v hkv _ acc fuel hfuel
    obtain ⟨hk, hv⟩ := hkv
    obtain ⟨g, rfl⟩ : ∃ g, fuel = g + 1 + 1 := ⟨fuel - 2, by omega⟩
    have hcolon : (": ").data = [':', ' '] := rfl
    have hdata : (renderFields [(k, v)]).data ++ [rbrace] =
        qchar :: (k.data ++ qchar :: ':' :: ' ' :: ((renderJson v).data ++ [rbrace])) := by
      simp [renderFields, renderString_data_safe hk, hcolon]
    rw [hdata]
    have hsb := parseStringBody_safe k.data hk
      (':' :: ' ' :: ((renderJson v).data ++ [rbrace]))
    have hsk1 : skipWs (':' :: ' ' :: ((renderJson v).data ++ [rbrace])) =
        ':' :: ' ' :: ((renderJson v).data ++ [rbrace]) := skipWs_cons_of (by decide) _
    have hv' := hv g rbrace [] (Or.inr rfl)
    rw [List.cons_append] at hv'
    have hsk2 : skipWs [rbrace] = [rbrace] := skipWs_cons_of (by decide) _
    have hmk : String.mk k.data = k := rfl
    have hnc : ¬ (rbrace = ',') := by decide
    have hnq : ¬ (qchar = ',') := by decide
    simp only [parseFields]
    simp [hsb, hsk1, hv', hsk2, hmk, hnc]
  | cons kv2 fs ih =>
    intro k v hkv hall acc fuel hfuel
    obtain ⟨k2, v2⟩ := kv2
    obtain ⟨hk, hv⟩ := hkv
    have hk2 : k2.data.all safeChar = true := (hall (k2, v2) (List.mem_cons_self _ _)).1
    obtain ⟨g, rfl⟩ : ∃ g, fuel = g + 1 + 1 := ⟨fuel - 2, by omega⟩
    have hcolon : (": ").data = [':', ' '] := rfl
    have hsepd : (", ").data = [',', ' '] := rfl
    have hdata : (renderFields ((k, v) :: (k2, v2) :: fs)).data ++ [rbrace] =
        qchar :: (k.data ++ qchar :: ':' :: ' ' :: ((renderJson v).data ++ ',' :: ' ' ::
          ((renderFields ((k2, v2) :: fs)).data ++ [rbrace]))) := by
      simp only [renderFields, String.data_append, renderString_data_safe hk, hcolon, hsepd]
      simp
    rw [hdata]
    have hsb := parseStringBody_safe k.data hk
      (':' :: ' ' :: ((renderJson v).data ++ ',' :: ' ' ::
        ((renderFields ((k2, v2) :: fs)).data ++ [rbrace])))
    have hsk1 : skipWs (':' :: ' ' :: ((renderJson v).data ++ ',' :: ' ' ::
        ((renderFields ((k2, v2) :: fs)).data ++ [rbrace]))) =
        ':' :: ' ' :: ((renderJson v).data ++ ',' :: ' ' ::
        ((renderFields ((k2, v2) :: fs)).data ++ [rbrace])) := skipWs_cons_of (by decide) _
    have hv' := hv g ','
      (' ' :: ((renderFields ((k2, v2) :: fs)).data ++ [rbrace])) (Or.inl rfl)
    rw [List.cons_append] at hv'
    have hsk2 : skipWs (',' :: ' ' :: ((renderFields ((k2, v2) :: fs)).data ++ [rbrace])) =
        ',' :: ' ' :: ((renderFields ((k2, v2) :: fs)).data ++ [rbrace]) :=
      skipWs_cons_of (by decide) _
    have hsk3 : skipWs (' ' :: ((renderFields ((k2, v2) :: fs)).data ++ [rbrace])) =
        (renderFields ((k2, v2) :: fs)).data ++ [rbrace] := by
      rw [skipWs_space]
      exact skipWs_eq_self_of_head (renderFields_head k2 v2 fs hk2) (by decide)
    have hmk : String.mk k.data = k := rfl
    have hrec := ih k2 v2 (hall (k2, v2) (List.mem_cons_self _ _))
      (fun kv hkv' => hall kv (List.mem_cons_of_mem _ hkv'))
      (acc ++ [(k, v)]) (g + 1) (by simp at hfuel ⊢; omega)
    conv_lhs => rw [parseFields.eq_def]
    simp [hsb, hsk1, hv', hsk2, hsk3, hmk, hrec]

theorem renderFields_data_cons (k2 : String) (v2 : Json) (fs : List (String × Json))
    (hk2 : k2.data.all safeChar = true) :
    ∃ t, (renderFields ((k2, v2) :: fs)).data = qchar :: t := by
  cases fs with
  | nil =>
    refine ⟨k2.data ++ [qchar] ++ (": ").data ++ (renderJson v2).data, ?_⟩
    simp [renderFields, renderString_data_safe hk2]
  | cons kv3 fs =>
    refine ⟨k2.data ++ [qchar] ++ (": ").data ++ (renderJson v2).data ++ (", ").data ++
      (renderFields (kv3 :: fs)).data, ?_⟩
    simp [renderFields, renderString_data_safe hk2]

theorem parseJson_render_obj (k : String) (v : Json) (fs : List (String × Json))
    (hkv : fieldStep k v) (hall : ∀ kv ∈ fs, fieldStep kv.1 kv.2) :
    parseJson (renderJson (Json.obj ((k, v) :: fs))) = Except.ok (Json.obj ((k, v) :: fs)) := by
  have hk := hkv.1
  have hdata : (renderJson (Json.obj ((k, v) :: fs))).data =
      lbrace :: ((renderFields ((k, v) :: fs)).data ++ [rbrace]) := by
    simp [renderJson]
  obtain ⟨t, ht⟩ := renderFields_data_cons k v fs hk
  have hlenR : ((renderFields ((k, v) :: fs)).data ++ [rbrace]).length =
      (renderFields ((k, v) :: fs)).data.length + 1 := by simp
  unfold parseJson
  rw [hdata]
  have hskip0 : skipWs (lbrace :: ((renderFields ((k, v) :: fs)).data ++ [rbrace])) =
      lbrace :: ((renderFields ((k, v) :: fs)).data ++ [rbrace]) :=
    skipWs_cons_of (by decide) _
  have hskipR : skipWs ((renderFields ((k, v) :: fs)).data ++ [rbrace]) =
      (renderFields ((k, v) :: fs)).data ++ [rbrace] := by
    rw [ht]
    exact skipWs_cons_of (by decide) _
  have hchain := parseFields_render_chain fs k v hkv hall []
    ((renderFields ((k, v) :: fs)).data.length + 2)
    (by have := renderFields_length_ge k v fs; omega)
  have hobj : parseObjBody ((renderFields ((k, v) :: fs)).data.length + 3)
      ((renderFields ((k, v) :: fs)).data ++ [rbrace]) =
      some (Json.obj ((k, v) :: fs), []) := by
    have hm : (renderFields ((k, v) :: fs)).data.length + 3 =
        ((renderFields ((k, v) :: fs)).data.length + 2) + 1 := rfl
    rw [hm]
    conv_lhs => rw [parseObjBody.eq_def]
    rw [ht, List.cons_append]
    have hq1 : ¬ (qchar = rbrace) := by decide
    simp only [hq1, if_false]
    rw [← List.cons_append, ← ht]
    simpa using hchain
  have hfin : parseValue ((renderFields ((k, v) :: fs)).data.length + 3 + 1)
      (lbrace :: ((renderFields ((k, v) :: fs)).data ++ [rbrace])) =
      some (Json.obj ((k, v) :: fs), []) := by
    conv_lhs => rw [parseValue.eq_def]
    simp only [hskip0]
    simp [hskipR]
    exact hobj
  have hfuel2 : (lbrace :: ((renderFields ((k, v) :: fs)).data ++ [rbrace])).length + 2 =
      (renderFields ((k, v) :: fs)).data.length + 3 + 1 := by
    simp
  rw [hfuel2, hfin]
  simp [skipWs]

theorem fieldStep_bool (k : String) (hk : k.data.all safeChar = true) (b : Bool) :
    fieldStep k (Json.bool b) := by
  refine ⟨hk, ?_⟩
  intro fuel c0 tail _
  cases b
  · have hd : (renderJson (Json.bool false)).data = ['f', 'a', 'l', 's', 'e'] := rfl
    rw [hd]
    simpa using parseValue_false fuel (c0 :: tail)
  · have hd : (renderJson (Json.bool true)).data = ['t', 'r', 'u', 'e'] := rfl
    rw [hd]
    simpa using parseValue_true fuel (c0 :: tail)

theorem fieldStep_null (k : String) (hk : k.data.all safeChar = true) :
    fieldStep k Json.null := by
  refine ⟨hk, ?_⟩
  intro fuel c0 tail _
  have hd : (renderJson Json.null).data = ['n', 'u', 'l', 'l'] := rfl
  rw [hd]
  simpa using parseValue_null fuel (c0 :: tail)

theorem fieldStep_str (k : String) (hk : k.data.all safeChar = true) (s : String)
    (hs : s.data.all safeChar = true) : fieldStep k (Json.str s) := by
  refine ⟨hk, ?_⟩
  intro fuel c0 tail _
  have hd : (renderJson (Json.str s)).data = qchar :: s.data ++ [qchar] :=
    renderString_data_safe hs
  rw [hd]
  have h := parseValue_str fuel s.data (c0 :: tail) hs
  have hmk : String.mk s.data = s := rfl
  rw [hmk] at h
  simpa [List.append_assoc] using h

theorem fieldStep_num (k : String) (hk : k.data.all safeChar = true) (q : ℚ)
    (hq : qValRoundTrip q) : fieldStep k (Json.num q) :=
  ⟨hk, fun fuel c0 tail h => hq fuel c0 tail h⟩

theorem cleanResponse_render_obj (k : String) (v : Json) (fs : List (String × Json)) :
    cleanResponse (renderJson (Json.obj ((k, v) :: fs))) =
      renderJson (Json.obj ((k, v) :: fs)) := by
  have hdata : (renderJson (Json.obj ((k, v) :: fs))).data =
      lbrace :: ((renderFields ((k, v) :: fs)).data ++ [rbrace]) := by
    simp [renderJson]
  have hstrip : pyStrip (renderJson (Json.obj ((k, v) :: fs))).data =
      (renderJson (Json.obj ((k, v) :: fs))).data := by
    rw [hdata]; exact pyStrip_eq_self_brace _
  have hcond : isPrefB tickFence.data (renderJson (Json.obj ((k, v) :: fs))).data = false := by
    rw [hdata]
    have hne : ¬ (btick = lbrace) := by decide
    have htf : tickFence.data = [btick, btick, btick] := rfl
    rw [htf]
    simp [isPrefB, hne]
  have hmk : String.mk (renderJson (Json.obj ((k, v) :: fs))).data =
      renderJson (Json.obj ((k, v) :: fs)) := rfl
  simp only [cleanResponse, hstrip, hmk, hcond]
  simp

theorem parse_response_render (b : Bool) (q : ℚ) (st : Option String) (rs rk : String)
    (hrs : rs.data.all safeChar = true)
    (hrk : rk.data.all safeChar = true)
    (hst : ∀ s, st = some s → s.data.all safeChar = true)
    (hq : qValRoundTrip q) :
    parse_response (renderJson (analysisJson ⟨b, q, st, rs, rk⟩)) =
      Except.ok ⟨b, q, st, rs, rk⟩ := by
  rcases st with _ | s
  · have hall : ∀ kv ∈ [("confidence", Json.num q), ("scam_type", Json.null),
        ("reasoning", Json.str rs), ("risk_level", Json.str rk)],
        fieldStep kv.1 kv.2 := by
      intro kv hkv
      simp only [List.mem_cons, List.not_mem_nil, or_false] at hkv
      rcases hkv with rfl | rfl | rfl | rfl
      · exact fieldStep_num "confidence" (by decide) q hq
      · exact fieldStep_null "scam_type" (by decide)
      · exact fieldStep_str "reasoning" (by decide) rs hrs
      · exact fieldStep_str "risk_level" (by decide) rk hrk
    have hobjeq : analysisJson ⟨b, q, none, rs, rk⟩ =
        Json.obj (("is_scam", Json.bool b) :: [("confidence", Json.num q),
          ("scam_type", Json.null), ("reasoning", Json.str rs),
          ("risk_level", Json.str rk)]) := rfl
    have hparse := parseJson_render_obj "is_scam" (Json.bool b)
      [("confidence", Json.num q), ("scam_type", Json.null),
        ("reasoning", Json.str rs), ("risk_level", Json.str rk)]
      (fieldStep_bool _ (by decide) b) hall
    have hclean := cleanResponse_render_obj "is_scam" (Json.bool b)
      [("confidence", Json.num q), ("scam_type", Json.null),
        ("reasoning", Json.str rs), ("risk_level", Json.str rk)]
    rw [hobjeq]
    unfold parse_response
    rw [hclean, hparse]
    rfl
  · have hs := hst s rfl
    have hall : ∀ kv ∈ [("confidence", Json.num q), ("scam_type", Json.str s),
        ("reasoning", Json.str rs), ("risk_level", Json.str rk)],
        fieldStep kv.1 kv.2 := by
      intro kv hkv
      simp only [List.mem_cons, List.not_mem_nil, or_false] at hkv
      rcases hkv with rfl | rfl | rfl | rfl
      · exact fieldStep_num "confidence" (by decide) q hq
      · exact fieldStep_str "scam_type" (by decide) s hs
      · exact fieldStep_str "reasoning" (by decide) rs hrs
      · exact fieldStep_str "risk_level" (by decide) rk hrk
    have hobjeq : analysisJson ⟨b, q, some s, rs, rk⟩ =
        Json.obj (("is_scam", Json.bool b) :: [("confidence", Json.num q),
          ("scam_type", Json.str s), ("reasoning", Json.str rs),
          ("risk_level", Json.str rk)]) := rfl
    have hparse := parseJson_render_obj "is_scam" (Json.bool b)
      [("confidence", Json.num q), ("scam_type", Json.str s),
        ("reasoning", Json.str rs), ("risk_level", Json.str rk)]
      (fieldStep_bool _ (by decide) b) hall
    have hclean := cleanResponse_render_obj "is_scam" (Json.bool b)
      [("confidence", Json.num q), ("scam_type", Json.str s),
        ("reasoning", Json.str rs), ("risk_level", Json.str rk)]
    rw [hobjeq]
    unfold parse_response
    rw [hclean, hparse]
    rfl

theorem natDigitsAux_safe : ∀ (fuel n : Nat) (acc : List Char),
    acc.all safeChar = true → (natDigitsAux fuel n acc).all safeChar = true := by
  intro fuel
  induction fuel with
  | zero => intro n acc h; exact h
  | succ f ih =>
    intro n acc h
    rw [natDigitsAux]
    split
    · rename_i hlt
      rw [List.all_cons, Bool.and_eq_true]
      refine ⟨?_, h⟩
      interval_cases n <;> decide
    · apply ih
      rw [List.all_cons, Bool.and_eq_true]
      refine ⟨?_, h⟩
      have hm : n % 10 < 10 := Nat.mod_lt _ (by omega)
      set m := n % 10 with hmdef
      interval_cases m <;> decide

theorem natToDecimal_safe (n : Nat) : (natToDecimal n).data.all safeChar = true :=
  natDigitsAux_safe (n + 1) n [] rfl

theorem reasoning_safe (text : List Char) :
    (detect_scam_analysis text).reasoning.data.all safeChar = true := by
  have h1 : (detect_scam_analysis text).reasoning =
      "Detected " ++ natToDecimal (countKeywords (full_context text) high_confidence_keywords) ++
        " high-confidence and " ++
        natToDecimal (countKeywords (full_context text) SCAM_KEYWORDS) ++
        " regular scam indicators" := rfl
  rw [h1]
  simp only [String.data_append, List.all_append, Bool.and_eq_true]
  refine ⟨⟨⟨⟨?_, ?_⟩, ?_⟩, ?_⟩, ?_⟩
  · decide
  · exact natToDecimal_safe _
  · decide
  · exact natToDecimal_safe _
  · decide

theorem risk_of_safe (q : ℚ) : (risk_of q).data.all safeChar = true := by
  unfold risk_of
  split
  · decide
  · split
    · decide
    · decide

theorem scam_type_safe (text : List Char) :
    ∀ s, (detect_scam_analysis text).scam_type = some s → s.data.all safeChar = true := by
  intro s hs
  have h1 : (detect_scam_analysis text).scam_type =
      (if (detect_scam_analysis text).is_scam then
        if ["prize", "lottery", "winner", "won"].any
            (fun k => isSubB k.data (full_context text)) then some "lottery_scam"
        else if ["kyc", "verify", "blocked", "suspended"].any
            (fun k => isSubB k.data (full_context text)) then some "kyc_scam"
        else if ["bank", "transfer", "upi", "payment"].any
            (fun k => isSubB k.data (full_context text)) then some "financial_scam"
        else if ["job", "work from home", "investment"].any
            (fun k => isSubB k.data (full_context text)) then some "job_investment_scam"
        else some "unknown"
      else none) := rfl
  rw [h1] at hs
  split at hs
  · split at hs
    · cases hs; decide
    · split at hs
      · cases hs; decide
      · split at hs
        · cases hs; decide
        · split at hs
          · cases hs; decide
          · cases hs; decide
  · exact absurd hs (by simp)

theorem qValRoundTrip_ds (ds : List Char) (hne : ds.isEmpty = false)
    (hdig : ds.all (fun x => x.isDigit) = true) (q : ℚ)
    (hval : mkRat (natOfDigits ds) (10 ^ ds.length) = q)
    (hrepr : (qRepr q).data = '0' :: '.' :: ds) :
    qValRoundTrip q := by
  intro fuel c0 tail hc0
  have hc0d : c0.isDigit = false := by rcases hc0 with rfl | rfl <;> decide
  have hce : ¬ (c0 = 'e' ∨ c0 = 'E') := by rcases hc0 with rfl | rfl <;> decide
  rw [hrepr]
  have h := parseValue_num fuel ds hne hdig c0 hc0d hce tail
  rw [hval] at h
  simpa [List.cons_append, List.append_assoc] using h

theorem qValRoundTrip_tenth (d : Nat) (hd : d ≤ 9) : qValRoundTrip (mkRat d 10) := by
  have hne : [Char.ofNat (48 + d)].isEmpty = false := rfl
  have hdig : [Char.ofNat (48 + d)].all (fun x => x.isDigit) = true := by
    interval_cases d <;> decide
  have hval : mkRat (natOfDigits [Char.ofNat (48 + d)])
      (10 ^ ([Char.ofNat (48 + d)]).length) = mkRat d 10 := by
    interval_cases d <;> decide
  have hrepr : (qRepr (mkRat d 10)).data = '0' :: '.' :: [Char.ofNat (48 + d)] := by
    interval_cases d <;> decide
  exact qValRoundTrip_ds _ hne hdig _ hval hrepr

theorem qValRoundTrip_95 : qValRoundTrip (mkRat 95 100) :=
  qValRoundTrip_ds ['9', '5'] rfl (by decide) _ (by decide) (by decide)

theorem conf_round_trip (text : List Char) :
    qValRoundTrip (detect_scam_analysis text).confidence := by
  have hconf : (detect_scam_analysis text).confidence =
      (if 1 ≤ countKeywords (full_context text) high_confidence_keywords
       then min 0.95
         (0.5 + (countKeywords (full_context text) high_confidence_keywords : ℚ) * 0.2)
       else min 0.95 ((countKeywords (full_context text) SCAM_KEYWORDS : ℚ) * 0.1)) := rfl
  rw [hconf]
  by_cases h1 : 1 ≤ countKeywords (full_context text) high_confidence_keywords
  · rw [if_pos h1]
    by_cases h3 : 3 ≤ countKeywords (full_context text) high_confidence_keywords
    · have hc : (3 : ℚ) ≤ (countKeywords (full_context text) high_confidence_keywords : ℚ) := by
        exact_mod_cast h3
      have hmin : min (0.95 : ℚ)
          (0.5 + (countKeywords (full_context text) high_confidence_keywords : ℚ) * 0.2) =
          0.95 := by
        apply min_eq_left
        nlinarith
      rw [hmin, show (0.95 : ℚ) = mkRat 95 100 by norm_num [Rat.mkRat_eq_div]]
      exact qValRoundTrip_95
    · interval_cases h : countKeywords (full_context text) high_confidence_keywords
      · rw [show min (0.95 : ℚ) (0.5 + (1 : Nat) * 0.2) = mkRat 7 10 by
          norm_num [Rat.mkRat_eq_div]]
        exact qValRoundTrip_tenth 7 (by norm_num)
      · rw [show min (0.95 : ℚ) (0.5 + ((2 : Nat) : ℚ) * 0.2) = mkRat 9 10 by
          norm_num [Rat.mkRat_eq_div]]
        exact qValRoundTrip_tenth 9 (by norm_num)
  · rw [if_neg h1]
    by_cases h10 : 10 ≤ countKeywords (full_context text) SCAM_KEYWORDS
    · have hc : (10 : ℚ) ≤ (countKeywords (full_context text) SCAM_KEYWORDS : ℚ) := by
        exact_mod_cast h10
      have hmin : min (0.95 : ℚ)
          ((countKeywords (full_context text) SCAM_KEYWORDS : ℚ) * 0.1) = 0.95 := by
        apply min_eq_left
        nlinarith
      rw [hmin, show (0.95 : ℚ) = mkRat 95 100 by norm_num [Rat.mkRat_eq_div]]
      exact qValRoundTrip_95
    · have hR9 : countKeywords (full_context text) SCAM_KEYWORDS ≤ 9 := by omega
      have hcast : ((countKeywords (full_context text) SCAM_KEYWORDS : ℚ)) ≤ 9 := by
        exact_mod_cast hR9
      have hpos : (0 : ℚ) ≤ (countKeywords (full_context text) SCAM_KEYWORDS : ℚ) := by
        positivity
      have hmin : min (0.95 : ℚ)
          ((countKeywords (full_context text) SCAM_KEYWORDS : ℚ) * 0.1) =
          (countKeywords (full_context text) SCAM_KEYWORDS : ℚ) * 0.1 := by
        apply min_eq_right
        nlinarith
      have hmk : ((countKeywords (full_context text) SCAM_KEYWORDS : ℚ)) * 0.1 =
          mkRat (countKeywords (full_context text) SCAM_KEYWORDS) 10 := by
        rw [Rat.mkRat_eq_div]
        push_cast
        norm_num
        ring
      rw [hmin, hmk]
      exact qValRoundTrip_tenth _ hR9

theorem parse_detect_scam (text : List Char) :
    parse_response (detect_scam text) = Except.ok (detect_scam_analysis text) := by
  have h := parse_response_render (detect_scam_analysis text).is_scam
    (detect_scam_analysis text).confidence (detect_scam_analysis text).scam_type
    (detect_scam_analysis text).reasoning (detect_scam_analysis text).risk_level
    (reasoning_safe text) (risk_of_safe _) (scam_type_safe text) (conf_round_trip text)
  exact h

theorem parse_response_heuristic (response msg : String)
    (h : parseJson (cleanResponse response) = Except.error msg) :
    parse_response response =
      Except.ok
        ⟨containsStr (String.mk (lowerL response.data)) "true" &&
            containsStr (String.mk (lowerL response.data)) "is_scam",
          if containsStr (String.mk (lowerL response.data)) "true" &&
              containsStr (String.mk (lowerL response.data)) "is_scam" then 0.5 else 0.2,
          if containsStr (String.mk (lowerL response.data)) "true" &&
              containsStr (String.mk (lowerL response.data)) "is_scam" then
            some "unknown" else none,
          "Parsed from unstructured response",
          if containsStr (String.mk (lowerL response.data)) "true" &&
              containsStr (String.mk (lowerL response.data)) "is_scam" then
            "medium" else "low"⟩ := by
  unfold parse_response
  rw [h]

theorem analysis_verdictInv (text : List Char) : verdictInv (detect_scam_analysis text) := by
  have hconf : (detect_scam_analysis text).confidence =
      (if 1 ≤ countKeywords (full_context text) high_confidence_keywords
       then min 0.95
         (0.5 + (countKeywords (full_context text) high_confidence_keywords : ℚ) * 0.2)
       else min 0.95 ((countKeywords (full_context text) SCAM_KEYWORDS : ℚ) * 0.1)) := rfl
  refine ⟨?_, ?_, rfl⟩
  · rw [hconf]
    split
    · apply le_min
      · norm_num
      · positivity
    · apply le_min
      · norm_num
      · positivity
  · rw [hconf]
    split <;> exact le_trans (min_le_left _ _) (by norm_num)

/-! ### Claim C10 -/

/-- C10: for every prompt containing both "analyze" and "scam"
case-insensitively, the string produced by `FallbackLLMClient.generate` is
valid JSON that `_parse_response` decodes without error — never taking the
unstructured-text heuristic branch — into exactly the rule-based verdict
(`is_scam`, `confidence`, `scam_type`, `reasoning` and `risk_level` all
preserved). -/
theorem c10_rule_based_round_trip (ridx : Nat) (prompt : String)
    (ha : isSubB "analyze".data (lowerL prompt.data) = true)
    (hs : isSubB "scam".data (lowerL prompt.data) = true) :
    parse_response (fallback_generate ridx prompt) =
      Except.ok (detect_scam_analysis prompt.data) := by
  have hgen : fallback_generate ridx prompt = detect_scam prompt.data := by
    unfold fallback_generate
    simp [ha, hs]
  rw [hgen]
  exact parse_detect_scam prompt.data

/-- Witness for C10 at a concrete classification prompt. -/
theorem c10_witness :
    parse_response (fallback_generate 0 promptExample) =
      Except.ok (detect_scam_analysis promptExample.data) :=
  c10_rule_based_round_trip 0 promptExample (by decide) (by decide)

/-! ### Claim C9 -/

/-- C9 (amended): every verdict produced by `detect` through the error
default, the heuristic text fallback, or the structured parse of rule-based
backend output has confidence in `[0,1]` and `risk_level` equal to the
monotone bucket of the confidence. (For an arbitrary structured backend
response the fields are copied unvalidated; `c9_counterexample` refutes the
claim on that path.) -/
theorem c9_confidence_risk_invariant (e resp msg : String) (ridx : Nat) (prompt : String)
    (hfail : parseJson (cleanResponse resp) = Except.error msg)
    (ha : isSubB "analyze".data (lowerL prompt.data) = true)
    (hs : isSubB "scam".data (lowerL prompt.data) = true) :
    verdictInv (detect (Except.error e)) ∧
    verdictInv (detect (Except.ok resp)) ∧
    verdictInv (detect (Except.ok (fallback_generate ridx prompt))) := by
  refine ⟨?_, ?_, ?_⟩
  · show verdictInv (errorVerdict e)
    refine ⟨by norm_num [errorVerdict], by norm_num [errorVerdict], ?_⟩
    show "low" = risk_of 0
    unfold risk_of
    norm_num
  · have hp := parse_response_heuristic resp msg hfail
    have hd : detect (Except.ok resp) =
        ⟨containsStr (String.mk (lowerL resp.data)) "true" &&
            containsStr (String.mk (lowerL resp.data)) "is_scam",
          if containsStr (String.mk (lowerL resp.data)) "true" &&
              containsStr (String.mk (lowerL resp.data)) "is_scam" then 0.5 else 0.2,
          if containsStr (String.mk (lowerL resp.data)) "true" &&
              containsStr (String.mk (lowerL resp.data)) "is_scam" then
            some "unknown" else none,
          "Parsed from unstructured response",
          if containsStr (String.mk (lowerL resp.data)) "true" &&
              containsStr (String.mk (lowerL resp.data)) "is_scam" then
            "medium" else "low"⟩ := by
      simp only [detect]
      rw [hp]
    rw [hd]
    by_cases hb : (containsStr (String.mk (lowerL resp.data)) "true" &&
        containsStr (String.mk (lowerL resp.data)) "is_scam") = true
    · refine ⟨?_, ?_, ?_⟩ <;> simp only [hb, if_true]
      · norm_num
      · norm_num
      · show "medium" = risk_of 0.5
        unfold risk_of
        norm_num
    · rw [Bool.not_eq_true] at hb
      refine ⟨?_, ?_, ?_⟩ <;> simp only [hb, Bool.false_eq_true, if_false]
      · norm_num
      · norm_num
      · show "low" = risk_of 0.2
        unfold risk_of
        norm_num
  · have hgen : fallback_generate ridx prompt = detect_scam prompt.data := by
      unfold fallback_generate
      simp [ha, hs]
    rw [hgen]
    have hp := parse_detect_scam prompt.data
    have hd : detect (Except.ok (detect_scam prompt.data)) = detect_scam_analysis prompt.data := by
      simp only [detect]
      rw [hp]
    rw [hd]
    exact analysis_verdictInv prompt.data

/-- Witness for C9 at concrete inputs on all three degraded paths. -/
theorem c9_witness :
    verdictInv (detect (Except.error "boom")) ∧
    verdictInv (detect (Except.ok "garbage")) ∧
    verdictInv (detect (Except.ok (fallback_generate 0 promptExample))) :=
  c9_confidence_risk_invariant "boom" "garbage" "Expecting value" 0 promptExample
    rfl (by decide) (by decide)

/-- Counterexample to C9 as stated: a well-formed structured backend response
with `confidence` 5.0 is copied through the structured parse path without
validation, so the resulting verdict violates both the `[0,1]` bound and the
risk bucketing. -/
theorem c9_counterexample :
    detect (Except.ok c9resp) =
      ⟨true, 5, none, "No reasoning provided", "low"⟩ ∧
    ¬ verdictInv (detect (Except.ok c9resp)) := by
  have hd : detect (Except.ok c9resp) =
      ⟨true, 5, none, "No reasoning provided", "low"⟩ := by decide
  refine ⟨hd, ?_⟩
  rintro ⟨-, hle, -⟩
  rw [hd] at hle
  norm_num at hle

end Honeypot
